import Mathlib

set_option maxRecDepth 8000

/-!
Shallow embedding of the Paycom/UZIO census comparison tool (src/app.py).

Modelling conventions:
* Python strings are modelled by Lean `String` (a list of characters); the
  ASCII fragment of `str.lower`/`str.casefold`/`str.strip` and of the regular
  expression character classes is modelled exactly, which covers every value
  the claims mention.
* Raw spreadsheet cell values are modelled by `Value`: a string cell, a
  blank/NaN/None cell, or a `decimal.Decimal` (which arises as the output of
  `safe_decimal`).  Binary-floating-point cells and native datetime cells are
  outside the model; date cells are represented by their string form.
* `decimal.Decimal` values (as produced by `Decimal(s)` on plain decimal
  literals, the only constructions the program performs) are modelled by
  `PyDec`: an integer mantissa `m` and a fraction-digit count `e`, denoting
  `m / 10^e`.  `str(Decimal)` is modelled by `pyDecStr`, and Python `==` on
  decimals by the exact numeric equality `pyDecEq`.
* `pandas.to_datetime` is an external library; it is modelled by an abstract
  `DateModel` (a date type, a parser, and an ISO formatter) so that theorems
  hold for every parser satisfying the ISO round-trip property the real
  library has.
-/

/-! ### Character classes (ASCII model of Python `str` methods / `re` classes) -/

def isSpaceCh (c : Char) : Bool :=
  c.toNat = 32 || c.toNat = 9 || c.toNat = 10 || c.toNat = 13 || c.toNat = 11
    || c.toNat = 12 || c.toNat = 160

def isDigitCh (c : Char) : Bool := 48 ≤ c.toNat && c.toNat ≤ 57

def isUpperCh (c : Char) : Bool := 65 ≤ c.toNat && c.toNat ≤ 90

def isLowerCh (c : Char) : Bool := 97 ≤ c.toNat && c.toNat ≤ 122

def isAlphaCh (c : Char) : Bool := isUpperCh c || isLowerCh c

def isAlnumCh (c : Char) : Bool := isAlphaCh c || isDigitCh c

def asciiLower (c : Char) : Char := if isUpperCh c then Char.ofNat (c.toNat + 32) else c

def asciiUpper (c : Char) : Char := if isLowerCh c then Char.ofNat (c.toNat - 32) else c

/-! ### List-of-characters utilities -/

/-- Remove trailing characters satisfying `p` (the right half of `str.strip`). -/
def dropTrail (p : Char → Bool) : List Char → List Char
  | [] => []
  | c :: r =>
    match dropTrail p r with
    | [] => if p c then [] else [c]
    | r2 => c :: r2

/-- Python `str.strip()` on a character list: drop leading and trailing whitespace. -/
def pyStripL (l : List Char) : List Char := dropTrail isSpaceCh (l.dropWhile isSpaceCh)

/-- Python `str.strip(ch)` for a single specific character. -/
def pyStripCharL (ch : Char) (l : List Char) : List Char :=
  dropTrail (fun c => c = ch) (l.dropWhile (fun c => c = ch))

/-- `re.sub(r"\s+", " ", ·)`: replace every maximal whitespace run by a single space. -/
def collapseSp : List Char → List Char
  | [] => []
  | [c] => if isSpaceCh c then [' '] else [c]
  | c1 :: c2 :: r =>
    if isSpaceCh c1 && isSpaceCh c2 then collapseSp (c2 :: r)
    else (if isSpaceCh c1 then ' ' else c1) :: collapseSp (c2 :: r)

/-- Left-pad with `'0'` to length `n` (Python `str.zfill` on unsigned digit strings,
    and the fraction padding of `str(Decimal)`). -/
def padZeros (n : Nat) (l : List Char) : List Char := List.replicate (n - l.length) '0' ++ l

/-! ### String wrappers -/

def strMap (g : Char → Char) (s : String) : String := ⟨s.data.map g⟩

def strFilter (p : Char → Bool) (s : String) : String := ⟨s.data.filter p⟩

/-- Python `s.strip()`. -/
def pyStrip (s : String) : String := ⟨pyStripL s.data⟩

/-- Python `s.lower()` / `s.casefold()` (ASCII model). -/
def pyLower (s : String) : String := strMap asciiLower s

def pyUpper (s : String) : String := strMap asciiUpper s

/-- Boolean prefix test on character lists. -/
def isPrefixB : List Char → List Char → Bool
  | [], _ => true
  | _ :: _, [] => false
  | a :: as, b :: bs => a == b && isPrefixB as bs

/-- Boolean contiguous-substring test: does `needle` occur inside `hay`? -/
def isSubB (needle : List Char) : List Char → Bool
  | [] => needle.isEmpty
  | b :: bs => isPrefixB needle (b :: bs) || isSubB needle bs

/-- Python `needle in hay` on strings. -/
def containsS (hay needle : String) : Bool := isSubB needle.data hay.data

/-- `s.strip().lower()`, the key used by `norm_blank`. -/
def blankKey (s : String) : String := pyLower (pyStrip s)

/-- Whether a string is blank-like: `s.strip().lower() in {"", "nan", "none", "null"}`. -/
def isBlankStr (s : String) : Bool :=
  (["", "nan", "none", "null"] : List String).contains (blankKey s)

/-- Whether a string is one of the non-empty blank sentinels. -/
def sentinelStr (s : String) : Bool :=
  (["nan", "none", "null"] : List String).contains (blankKey s)

/-- `re.fullmatch(r"\d+\.0+", s)`: one-or-more digits, a dot, one-or-more zeros. -/
def matchIntDotZeros (l : List Char) : Bool :=
  let p := l.span isDigitCh
  !p.1.isEmpty && p.2.head? == some '.' && !p.2.tail.isEmpty && p.2.tail.all (fun c => c = '0')

/-- Python `s.split(".")[0]`. -/
def beforeDot (l : List Char) : List Char := l.takeWhile (fun c => c ≠ '.')

/-! ### Decimal digit printing and parsing -/

/-- Little-endian decimal digits of `n`, by repeated division (with enough
    fuel to terminate structurally). -/
def natDigitsAux : Nat → Nat → List Nat
  | 0, _ => []
  | _ + 1, 0 => []
  | f + 1, n + 1 => ((n + 1) % 10) :: natDigitsAux f ((n + 1) / 10)

/-- Little-endian decimal digits of `n` (`[]` for 0). -/
def natDigitsLE (n : Nat) : List Nat := natDigitsAux n n

/-- Value of a little-endian digit list. -/
def ofDigitsLE : List Nat → Nat
  | [] => 0
  | d :: ds => d + 10 * ofDigitsLE ds

/-- Decimal digit list (most significant first) of a natural number
    (Python `str(n)`). -/
def natChars (n : Nat) : List Char :=
  if n = 0 then ['0'] else ((natDigitsLE n).map Nat.digitChar).reverse

/-- Value of a big-endian decimal digit-character list (Python `int(s)` on digit strings,
    and the digit accumulation inside `Decimal(s)`). -/
def parseNatL (l : List Char) : Nat := l.foldl (fun a c => a * 10 + (c.toNat - 48)) 0

/-- Python `str(z)` for an int. -/
def intChars (z : Int) : List Char :=
  if z < 0 then '-' :: natChars z.natAbs else natChars z.natAbs

/-! ### Python `decimal.Decimal` model -/

/-- A Python `Decimal` as constructed by this program: mantissa `m` with `e`
    fraction digits, denoting `m / 10^e`. -/
structure PyDec where
  m : Int
  e : Nat
deriving DecidableEq

/-- Python `==` on `Decimal`s: exact numeric equality. -/
def pyDecEq (a b : PyDec) : Bool := a.m * (10 : Int) ^ b.e == b.m * (10 : Int) ^ a.e

/-- `str(d)` for a `Decimal` of the shapes this program constructs. -/
def pyDecStrL (d : PyDec) : List Char :=
  (if d.m < 0 then ['-'] else []) ++
    (if d.e = 0 then natChars d.m.natAbs
     else natChars (d.m.natAbs / 10 ^ d.e) ++ '.' :: padZeros d.e (natChars (d.m.natAbs % 10 ^ d.e)))

def pyDecStr (d : PyDec) : String := ⟨pyDecStrL d⟩

/-- `Decimal(s)` on a plain decimal literal `[sign] digits [. digits]`
    (surrounding whitespace tolerated, as in CPython).  Exponent and special
    forms, which the program never produces, are treated as unparsable. -/
def parseDecL (l : List Char) : Option PyDec :=
  let t := pyStripL l
  let sgn : Int := if t.head? == some '-' then -1 else 1
  let t1 := if t.head? == some '-' || t.head? == some '+' then t.tail else t
  let ip := t1.span isDigitCh
  if ip.2.isEmpty then
    if ip.1.isEmpty then none else some ⟨sgn * parseNatL ip.1, 0⟩
  else if ip.2.head? == some '.' then
    let fp := ip.2.tail.span isDigitCh
    if fp.2.isEmpty && !(ip.1.isEmpty && fp.1.isEmpty) then
      some ⟨sgn * (parseNatL ip.1 * 10 ^ fp.1.length + parseNatL fp.1), fp.1.length⟩
    else none
  else none

/-! ### Cell values -/

/-- A cell value flowing through the comparison engine. -/
inductive Value where
  | vstr (s : String)
  | vblank
  | vdec (d : PyDec)
deriving DecidableEq

/-- Python `str(x)` as applied to cell values (`str` on a string is the identity,
    on a `Decimal` it is `pyDecStr`; it is never applied to blanks because every
    call site filters them through `norm_blank` first). -/
def pyStr : Value → String
  | .vstr s => s
  | .vblank => ""
  | .vdec d => pyDecStr d

/-- `norm_blank(x) == ""`: blank cells and blank-like strings. -/
def isBlank : Value → Bool
  | .vstr s => isBlankStr s
  | .vblank => true
  | .vdec _ => false

/-- `norm_blank`: blanks collapse to the empty string, everything else is unchanged. -/
def norm_blank (x : Value) : Value := if isBlank x then .vstr "" else x

/-- Python `==` on normalized values (string equality, exact decimal equality,
    `False` across types). -/
def valueEq (a b : Value) : Bool :=
  match a, b with
  | .vstr s, .vstr t => s == t
  | .vdec d1, .vdec d2 => pyDecEq d1 d2
  | .vblank, .vblank => true
  | _, _ => false

/-- `v == ""` in Python. -/
def isEmptyV (v : Value) : Bool := valueEq v (.vstr "")

/-! ### `norm_colname` (app.py lines 45-54) -/

/-- `norm_colname`: newline/carriage-return/non-breaking-space to space, curly
    quotes straightened, whitespace collapsed and stripped, `*` removed, then
    surrounding double and single quotes stripped. -/
def norm_colname (c : String) : String :=
  let l1 := c.data.map (fun ch => if ch = '\n' || ch = '\r' then ' ' else ch)
  let l2 := l1.map (fun ch => if ch = ' ' then ' ' else ch)
  let l3 := l2.map (fun ch =>
    if ch = '’' then '\'' else if ch = '“' || ch = '”' then '"' else ch)
  let l4 := pyStripL (collapseSp l3)
  let l5 := l4.filter (fun ch => !(ch = '*'))
  ⟨pyStripCharL '\'' (pyStripCharL '"' l5)⟩

/-- `norm_colname(field).casefold()`, the normalized field key used everywhere. -/
def fieldNorm (field : String) : String := pyLower (norm_colname field)

/-! ### Digit-based normalizers (app.py lines 121-159) -/

/-- `digits_only` (lines 121-136): blank-like values give `""`; otherwise
    stringify, strip, drop a `.0...0` tail, and keep only digits.  (The
    `int`/`float` isinstance branches concern value types outside the model.) -/
def digits_only (x : Value) : String :=
  if isBlank x then ""
  else
    let s := pyStripL (pyStr x).data
    let s2 := if matchIntDotZeros s then beforeDot s else s
    ⟨s2.filter isDigitCh⟩

/-- `norm_phone_digits` (lines 138-151): digits only; drop a leading `'1'`
    when 11 digits; keep the last 10 when longer than 10. -/
def norm_phone_digits (x : Value) : String :=
  let d := (digits_only x).data
  if d.isEmpty then ""
  else
    let d2 := if d.length = 11 && d.head? == some '1' then d.tail else d
    let d3 := if d2.length > 10 then d2.drop (d2.length - 10) else d2
    ⟨d3⟩

/-- `norm_zip_first5` (lines 153-159): digits only; left-zero-pad when
    strictly between 0 and 5 digits; keep the first 5. -/
def norm_zip_first5 (x : Value) : String :=
  let d := (digits_only x).data
  if d.isEmpty then ""
  else
    let d2 := if 0 < d.length && d.length < 5 then padZeros 5 d else d
    ⟨d2.take 5⟩

/-! ### Dates (app.py lines 161-173) -/

/-- Abstract model of `pandas.to_datetime(s).date().isoformat()`: a date type,
    a parser and an ISO formatter.  Theorems that depend on dates assume only
    the round-trip properties (`GoodDate`) of the real library. -/
structure DateModel where
  D : Type
  dparse : String → Option D
  diso : D → String

/-- The properties of the real pandas parser that the proofs use: parsing an
    ISO-formatted date succeeds and returns the same date, and ISO output
    carries no surrounding whitespace. -/
def GoodDate (dm : DateModel) : Prop :=
  (∀ d : dm.D, dm.dparse (dm.diso d) = some d) ∧
  (∀ d : dm.D, pyStrip (dm.diso d) = dm.diso d)

/-- `try_parse_date` (lines 161-173): blank-like gives `""`; strings are
    stripped and parsed, unparsable strings pass through stripped; any other
    value is stringified (line 173 `return str(x)`). -/
def try_parse_date (dm : DateModel) (x : Value) : String :=
  if isBlank x then ""
  else
    match x with
    | .vstr s =>
      let t := pyStrip s
      match dm.dparse t with
      | some d => dm.diso d
      | none => t
    | .vdec d => pyDecStr d
    | .vblank => ""

/-! ### Decimals (app.py lines 175-201) -/

/-- `safe_decimal` (lines 175-195): blank-like gives `None`; otherwise
    stringify, strip, remove `","` and `"$"`, drop a `.0...0` tail, and build
    an exact decimal; failure gives `None`. -/
def safe_decimal (x : Value) : Option PyDec :=
  if isBlank x then none
  else
    let s := pyStripL (pyStr x).data
    let s1 := s.filter (fun c => !(c = ','))
    let s2 := s1.filter (fun c => !(c = '$'))
    let s3 := if matchIntDotZeros s2 then beforeDot s2 else s2
    parseDecL s3

/-- `approx_equal_decimal` (lines 197-201): `False` on missing values, exact
    decimal equality otherwise. -/
def approx_equal_decimal (a b : Option PyDec) : Bool :=
  match a, b with
  | some x, some y => pyDecEq x y
  | _, _ => false

/-! ### Text normalizers (app.py lines 203-264) -/

/-- `norm_spaces_punct` (lines 203-212): non-breaking space, then `-_/`, then
    all remaining punctuation become spaces; whitespace collapses; strip;
    casefold. -/
def norm_spaces_punct (x : Value) : String :=
  if isBlank x then ""
  else
    let l := (pyStr x).data
    let l1 := l.map (fun ch => if ch = ' ' then ' ' else ch)
    let l2 := l1.map (fun ch => if ch = '-' || ch = '_' || ch = '/' then ' ' else ch)
    let l3 := l2.map (fun ch => if !(isAlnumCh ch || isSpaceCh ch) then ' ' else ch)
    pyLower ⟨pyStripL (collapseSp l3)⟩

/-- `norm_middle_initial` (lines 214-221): first alphabetic character,
    uppercased; `""` when there is none. -/
def norm_middle_initial (x : Value) : String :=
  if isBlank x then ""
  else
    let s := pyStripL (pyStr x).data
    match s.find? isAlphaCh with
    | some c => ⟨pyStripL [asciiUpper c]⟩
    | none => ⟨pyStripL []⟩

/-- `norm_suffix` (lines 223-225). -/
def norm_suffix (x : Value) : String := norm_spaces_punct x

/-- `norm_pay_type` (lines 227-236): bucket into `"salary"` / `"hourly"`. -/
def norm_pay_type (x : Value) : String :=
  let s := norm_spaces_punct x
  if s = "" then ""
  else if containsS s "salar" then "salary"
  else if containsS s "hour" then "hourly"
  else s

/-- `norm_employment_status` (lines 238-245): `"on leave"`/`"leave"` bucket
    into `"active"`. -/
def norm_employment_status (x : Value) : String :=
  let s := norm_spaces_punct x
  if s = "" then ""
  else if s = "on leave" || s = "leave" then "active"
  else s

/-- `norm_termination_reason` (lines 247-248). -/
def norm_termination_reason (x : Value) : String := norm_spaces_punct x

/-- `termination_reason_equivalent` (lines 250-264): both blank, or both
    containing `"involuntary"`, or both containing `"voluntary"`. -/
def termination_reason_equivalent (uzio_val paycom_val : Value) : Bool :=
  let u := norm_termination_reason uzio_val
  let p := norm_termination_reason paycom_val
  if u = "" && p = "" then true
  else
    let u_has_vol := containsS u "voluntary"
    let p_has_vol := containsS p "voluntary"
    let u_has_invol := containsS u "involuntary"
    let p_has_invol := containsS p "involuntary"
    if u_has_invol && p_has_invol then true
    else if u_has_vol && p_has_vol then true
    else false

/-! ### Field classification and `norm_value_for_field` (app.py lines 266-316) -/

def DATE_KEYWORDS : List String := ["date", "dob", "birth", "effective", "doh", "hire"]

def ZIP_KEYWORDS : List String := ["zip", "zipcode", "postal"]

def PHONE_KEYWORDS : List String := ["phone", "mobile"]

def NUMERIC_HINTS : List String := ["salary", "rate", "hours", "amount", "percent", "percentage", "digits"]

/-- `any(k in f for k in kws)`. -/
def kwAny (f : String) (kws : List String) : Bool := kws.any (fun k => containsS f k)

/-- The field classes of `norm_value_for_field`. -/
inductive FieldClass where
  | phoneF | zipF | dateF | midInitF | suffixF | empTypeF | payTypeF | empStatusF
  | numericF | defaultF
deriving DecidableEq

/-- The keyword dispatch of `norm_value_for_field` (lines 272-316), factored
    out as a classifier; the conditions appear in exactly the source order. -/
def classify_field (field : String) : FieldClass :=
  let f := fieldNorm field
  if kwAny f PHONE_KEYWORDS then .phoneF
  else if kwAny f ZIP_KEYWORDS then .zipF
  else if kwAny f DATE_KEYWORDS then .dateF
  else if containsS f "middle" && containsS f "initial" then .midInitF
  else if containsS f "suffix" then .suffixF
  else if containsS f "employment type" then .empTypeF
  else if pyStrip f == "pay type" || containsS f "pay type" then .payTypeF
  else if containsS f "employment status" then .empStatusF
  else if kwAny f NUMERIC_HINTS then .numericF
  else .defaultF

/-- `norm_value_for_field` (lines 272-316). -/
def norm_value_for_field (dm : DateModel) (x : Value) (field : String) : Value :=
  if isBlank x then .vstr ""
  else
    match classify_field field with
    | .phoneF => .vstr (norm_phone_digits x)
    | .zipF => .vstr (norm_zip_first5 x)
    | .dateF => .vstr (try_parse_date dm x)
    | .midInitF => .vstr (norm_middle_initial x)
    | .suffixF => .vstr (norm_suffix x)
    | .empTypeF => .vstr (norm_spaces_punct x)
    | .payTypeF => .vstr (norm_pay_type x)
    | .empStatusF => .vstr (norm_employment_status x)
    | .numericF =>
      match safe_decimal x with
      | some d => .vdec d
      | none => .vstr (norm_spaces_punct x)
    | .defaultF => .vstr (norm_spaces_punct x)

/-! ### Tables and rows (run_comparison, app.py lines 353-574) -/

/-- A table row: column name to cell value (a pandas row Series). -/
abbrev Row := List (String × Value)

/-- A loaded sheet: normalized column names, and rows keyed by the normalized
    employee identifier (the state after lines 362-377 and 400-401). -/
structure PTable where
  cols : List String
  rows : List (String × Row)

/-- `row.get(col, "")`: pandas `Series.get` with default `""`. -/
def rowGet (r : Row) (c : String) : Value :=
  match r.find? (fun p => p.1 == c) with
  | some p => p.2
  | none => .vstr ""

/-- `table.loc[emp]` with the duplicate-key rule "pick first row" (lines 411-418). -/
def lookupRow (t : PTable) (k : String) : Option Row :=
  (t.rows.find? (fun p => p.1 == k)).map (fun p => p.2)

/-- `find_col` (lines 75-81): candidates in order against a normalized-name
    dictionary of the columns (last occurrence wins on normalized collisions,
    as in the Python dict comprehension). -/
def find_col (cols : List String) : List String → Option String
  | [] => none
  | c :: rest =>
    match cols.reverse.find? (fun col => fieldNorm col == fieldNorm c) with
    | some a => some a
    | none => find_col cols rest

/-- One row of the loaded mapping table: `UZIO_Column`, `PAYCOM_Label`,
    `PAYCOM_Resolved_Column` (lines 342-344). -/
structure MapEntry where
  uzioCol : String
  paycomLabel : String
  paycomResolved : String
deriving DecidableEq

/-- `str(norm_blank(x) or "").strip()` (lines 429, 487, 514). -/
def blankOrStr (v : Value) : String := pyStrip (pyStr (norm_blank v))

/-- The UZIO-blank test of the conditional overrides. -/
def ctxBlank (v : Value) : Bool := blankOrStr v == ""

/-- The `elif pc_row is not None` fallback of the employment-status context
    (lines 424-428). -/
def empStatusFallback (paycom : PTable) (pcRow : Option Row) : Value :=
  match pcRow with
  | some r =>
    match find_col paycom.cols ["Employment Status", "EmploymentStatus"] with
    | some c => rowGet r c
    | none => .vstr ""
  | none => .vstr ""

/-- Employment-status context column (lines 421-429). -/
def empStatusCtx (uzio paycom : PTable) (uzRow pcRow : Option Row) : String :=
  let uCol := find_col uzio.cols ["Employment Status"]
  let raw : Value :=
    match uzRow, uCol with
    | some r, some c =>
      if uzio.cols.contains c then rowGet r c else empStatusFallback paycom pcRow
    | _, _ => empStatusFallback paycom pcRow
  blankOrStr raw

/-- The paycom fallback of the pay-type context (lines 436-439). -/
def payTypeFallback (paycom : PTable) (pcRow : Option Row) : Value :=
  match find_col paycom.cols ["Pay Type"], pcRow with
  | some c, some r => rowGet r c
  | _, _ => .vstr ""

/-- Pay-type context (lines 431-440): the UZIO row's `Pay Type` when
    available, else the Paycom row's, normalized by `norm_pay_type`. -/
def payTypeCtx (uzio paycom : PTable) (uzRow pcRow : Option Row) : String :=
  let uCol := find_col uzio.cols ["Pay Type"]
  norm_pay_type
    (match uzRow, uCol with
     | some r, some c =>
       if uzio.cols.contains c then rowGet r c else payTypeFallback paycom pcRow
     | _, _ => payTypeFallback paycom pcRow)

/-- Raw UZIO cell for a mapped field (lines 450-451). -/
def valOfUz (uzioCols : List String) (uzRow : Option Row) (field : String) : Value :=
  match uzRow with
  | some r => if uzioCols.contains field then rowGet r field else .vstr ""
  | none => .vstr ""

/-- Raw Paycom cell for a resolved column (lines 452-453). -/
def valOfPc (pcCols : List String) (pcRow : Option Row) (col : String) : Value :=
  match pcRow with
  | some r => if !(col == "") && pcCols.contains col then rowGet r col else .vstr ""
  | none => .vstr ""

/-- The two-way comparison `"OK" if u_n == p_n else "MISMATCH"`
    (lines 476, 492). -/
def compare2 (u p : Value) : String := if valueEq u p then "OK" else "MISMATCH"

/-- The two-way comparison with the Decimal special case (lines 519-522). -/
def compare2dec (u p : Value) : String :=
  match u, p with
  | .vdec a, .vdec b => if approx_equal_decimal (some a) (some b) then "OK" else "MISMATCH"
  | _, _ => if valueEq u p then "OK" else "MISMATCH"

/-- The generic comparison (lines 498-509, repeated at 526-536 and 541-551):
    Decimal pair by exact equality, otherwise the four-way classification. -/
def genericCompare (u p : Value) : String :=
  match u, p with
  | .vdec a, .vdec b => if approx_equal_decimal (some a) (some b) then "OK" else "MISMATCH"
  | _, _ =>
    if valueEq u p || (isEmptyV u && isEmptyV p) then "OK"
    else if isEmptyV u && !isEmptyV p then "UZIO_MISSING_VALUE"
    else if !isEmptyV u && isEmptyV p then "PAYCOM_MISSING_VALUE"
    else "MISMATCH"

/-- The status decision for one (employee, field) pair (lines 446-551),
    given the two sheets' column lists, the pay-type context, the two looked-up
    rows (`none` when the employee is absent from that sheet), the UZIO field
    name and the resolved Paycom column name. -/
def statusFor (dm : DateModel) (uzioCols pcCols : List String) (payCtx : String)
    (uzRow pcRow : Option Row) (uzField pcCol : String) : String :=
  let uzVal := valOfUz uzioCols uzRow uzField
  let pcVal := valOfPc pcCols pcRow pcCol
  if !uzRow.isSome && pcRow.isSome then "MISSING_IN_UZIO"
  else if uzRow.isSome && !pcRow.isSome then "MISSING_IN_PAYCOM"
  else if pcCol == "" || !pcCols.contains pcCol then "PAYCOM_COLUMN_MISSING"
  else if !uzioCols.contains uzField then "UZIO_COLUMN_MISSING"
  else
    let fN := fieldNorm uzField
    if containsS fN "termination reason" then
      if termination_reason_equivalent uzVal pcVal then "OK"
      else compare2 (norm_value_for_field dm uzVal uzField) (norm_value_for_field dm pcVal uzField)
    else if payCtx == "salary" then
      if containsS fN "hourly pay rate" || containsS fN "hourly rate"
          || containsS fN "working hours per week" then
        if ctxBlank uzVal then "OK"
        else compare2 (norm_value_for_field dm uzVal uzField) (norm_value_for_field dm pcVal uzField)
      else genericCompare (norm_value_for_field dm uzVal uzField) (norm_value_for_field dm pcVal uzField)
    else if payCtx == "hourly" then
      if containsS fN "annual salary" then
        if ctxBlank uzVal then "OK"
        else compare2dec (norm_value_for_field dm uzVal uzField) (norm_value_for_field dm pcVal uzField)
      else genericCompare (norm_value_for_field dm uzVal uzField) (norm_value_for_field dm pcVal uzField)
    else genericCompare (norm_value_for_field dm uzVal uzField) (norm_value_for_field dm pcVal uzField)

/-- One output row of `Comparison_Detail_AllFields` (lines 553-562). -/
structure DetailRow where
  employee : String
  field : String
  empStatus : String
  uzVal : Value
  pcVal : Value
  status : String
deriving DecidableEq

instance : Inhabited Value := ⟨.vblank⟩

instance : Inhabited DetailRow := ⟨⟨"", "", "", .vblank, .vblank, ""⟩⟩

/-- Code-point lexicographic order on strings (Python string `<`). -/
def charsLe : List Char → List Char → Bool
  | [], _ => true
  | _ :: _, [] => false
  | a :: as, b :: bs => if a = b then charsLe as bs else decide (a < b)

def strLeB (a b : String) : Bool := charsLe a.data b.data

def insertSorted (x : String) : List String → List String
  | [] => [x]
  | y :: ys => if strLeB x y then x :: y :: ys else y :: insertSorted x ys

def sortStrings (l : List String) : List String := l.foldr insertSorted []

def dedupFirstAux (seen : List String) : List String → List String
  | [] => []
  | x :: xs =>
    if seen.contains x then dedupFirstAux seen xs else x :: dedupFirstAux (x :: seen) xs

/-- Set-like deduplication keeping first occurrences. -/
def dedupFirst (l : List String) : List String := dedupFirstAux [] l

/-- `sorted(set(uzio keys) | set(paycom keys) - {""})` (line 403). -/
def allEmployees (uzio paycom : PTable) : List String :=
  sortStrings
    ((dedupFirst (uzio.rows.map Prod.fst ++ paycom.rows.map Prod.fst)).filter (fun k => !(k == "")))

/-- The detail rows produced for one employee (the body of the outer loop,
    lines 410-562). -/
def rowsForEmp (dm : DateModel) (uzio paycom : PTable) (emp : String)
    (mapping : List MapEntry) : List DetailRow :=
  let uzRow := lookupRow uzio emp
  let pcRow := lookupRow paycom emp
  let est := empStatusCtx uzio paycom uzRow pcRow
  let ctx := payTypeCtx uzio paycom uzRow pcRow
  mapping.map (fun m =>
    ⟨emp, m.uzioCol, est,
     valOfUz uzio.cols uzRow m.uzioCol,
     valOfPc paycom.cols pcRow m.paycomResolved,
     statusFor dm uzio.cols paycom.cols ctx uzRow pcRow m.uzioCol m.paycomResolved⟩)

/-- The full detail table: cross product of aligned employees and mapped
    fields (lines 403-574), with the mapping table supplied directly. -/
def compareRows (dm : DateModel) (uzio paycom : PTable) (mapping : List MapEntry) :
    List DetailRow :=
  (allEmployees uzio paycom).flatMap (fun emp => rowsForEmp dm uzio paycom emp mapping)

/-! ### Field summary (app.py lines 577-599) -/

/-- The status columns of `Field_Summary_By_Status`, in source order. -/
def statusList : List String :=
  ["OK", "MISMATCH", "UZIO_MISSING_VALUE", "PAYCOM_MISSING_VALUE",
   "MISSING_IN_UZIO", "MISSING_IN_PAYCOM", "PAYCOM_COLUMN_MISSING", "UZIO_COLUMN_MISSING"]

/-- One pivot cell: the count of detail rows with the given field and status
    (`pivot_table(values="Employee", aggfunc="count")`; the `Employee` cell is
    never null, so `count` is the number of rows). -/
def countFieldStatus (rows : List DetailRow) (f s : String) : Nat :=
  (rows.filter (fun r => r.field == f && r.status == s)).length

/-- The number of detail rows for a field. -/
def countField (rows : List DetailRow) (f : String) : Nat :=
  (rows.filter (fun r => r.field == f)).length

/-- The `Total` column: the row sum over the eight status columns (line 599). -/
def fieldTotal (rows : List DetailRow) (f : String) : Nat :=
  (statusList.map (fun s => countFieldStatus rows f s)).sum

/-! ### Mapping-sheet loader (app.py lines 319-351) -/

inductive PyErr where
  | valueError | keyError
deriving DecidableEq

def dedupPairsAux (seen : List String) : List (String × String) → List (String × String)
  | [] => []
  | p :: ps =>
    if seen.contains p.1 then dedupPairsAux seen ps else p :: dedupPairsAux (p.1 :: seen) ps

/-- `drop_duplicates(subset=[uz_col_name], keep="first")` (line 340). -/
def dedupPairs (l : List (String × String)) : List (String × String) := dedupPairsAux [] l

/-- `read_mapping_sheet` from the point where both mapping columns have been
    located (lines 335-351), taking the mapping rows as (UZIO label, Paycom
    label) pairs and the label resolution (`resolve_col_label`, whose details
    the claims do not touch) as a function.  Line 348 filters with the
    expression `m["_uz_norm"] not in [...]`: under CPython semantics
    `Series not in list` evaluates `bool(Series == "employee id")`, which
    raises `ValueError` unless the frame has exactly one row; with exactly one
    row the result is a plain `bool` and `m[bool]` raises `KeyError` because
    no column is named `True`/`False`.  The loader therefore never returns. -/
def read_mapping_sheet (resolver : String → String) (entries : List (String × String)) :
    Except PyErr (List MapEntry) :=
  let m1 := entries.map (fun p => (norm_colname p.1, norm_colname p.2))
  let m2 := m1.filter (fun p => !(p.1 == "") && !(p.2 == ""))
  let m3 := dedupPairs m2
  let tbl := m3.map (fun p => MapEntry.mk p.1 p.2 (resolver p.2))
  if tbl.length = 1 then Except.error PyErr.keyError
  else Except.error PyErr.valueError

def exceptIsOk : Except PyErr (List MapEntry) → Bool
  | .ok _ => true
  | .error _ => false

/-! ### Spec-worded postal rule (for claim C3) -/

/-- The claim's wording of the postal-code rule, "digits-only, left-zero-padded
    to 5 digits and truncated to the first 5", stated as its own definition to
    compare against `norm_zip_first5`. -/
def zip_spec_rule (x : Value) : String :=
  let d := (digits_only x).data
  if d.isEmpty then "" else ⟨(padZeros 5 d).take 5⟩

/-! ### Concrete instances used by witnesses and counterexamples -/

/-- A concrete date model satisfying `GoodDate` (a one-date parser). -/
def dm0 : DateModel :=
  ⟨Unit, fun s => if s == "2001-02-03" then some () else none, fun _ => "2001-02-03"⟩

/-- A UZIO sheet with no rows (for the missing-record witnesses). -/
def uzT0 : PTable := ⟨["Employee ID", "First Name"], []⟩

/-- A Paycom sheet containing just employee `"7"`. -/
def pcT0 : PTable :=
  ⟨["Employee_Code", "F1x"], [("7", [("Employee_Code", .vstr "7"), ("F1x", .vstr "a")])]⟩

/-- A one-field mapping table. -/
def mp0 : List MapEntry := [⟨"First Name", "F1x", "F1x"⟩]

/-! ### Auxiliary predicates for the idempotence analysis -/

/-- A raw spreadsheet cell: a string or a blank, never a `Decimal`
    (decimals only arise as normalization outputs). -/
def IsRawCell : Value → Prop
  | .vdec _ => False
  | _ => True

/-- Characters that `norm_spaces_punct` outputs: non-uppercase alphanumerics
    and the plain space. -/
def charOK (c : Char) : Bool := !isUpperCh c && (isAlnumCh c || c == ' ')

/-- No two adjacent whitespace characters. -/
def noAdjSp : List Char → Bool
  | [] => true
  | [_] => true
  | a :: b :: r => !(isSpaceCh a && isSpaceCh b) && noAdjSp (b :: r)

/-- The first character (if any) does not satisfy `p`. -/
def headNotP (p : Char → Bool) : List Char → Bool
  | [] => true
  | c :: _ => !p c

/-- The last character (if any) does not satisfy `p`. -/
def lastNotP (p : Char → Bool) : List Char → Bool
  | [] => true
  | [c] => !p c
  | _ :: b :: r => lastNotP p (b :: r)

/-- The normal form of `norm_spaces_punct` outputs: only `charOK` characters,
    no adjacent spaces, no leading or trailing space. -/
def nspInv (l : List Char) : Bool :=
  l.all charOK && noAdjSp l && headNotP isSpaceCh l && lastNotP isSpaceCh l

/-! ## Theorems -/

/-- C8: `norm_phone_digits` maps `"1-206-555-0100"`, `"12065550100"` and
    `"2065550100"` all to `"2065550100"` (digits only; drop the leading
    country-code digit at 11 digits; keep the last 10 beyond 10). -/
theorem c8_phone_normalization :
    norm_phone_digits (.vstr "1-206-555-0100") = "2065550100"
    ∧ norm_phone_digits (.vstr "12065550100") = "2065550100"
    ∧ norm_phone_digits (.vstr "2065550100") = "2065550100" := by
  refine ⟨?_, ?_, ?_⟩ <;> decide

/-- C7: numeric normalization compares exact decimals, so `150000.00 = 150000`
    and `80.0 = 80` while `80.01 ≠ 80.0`; the same holds through
    `norm_value_for_field` on a numeric field. -/
theorem c7_decimal_equality :
    approx_equal_decimal (safe_decimal (.vstr "150000.00")) (safe_decimal (.vstr "150000")) = true
    ∧ approx_equal_decimal (safe_decimal (.vstr "80.0")) (safe_decimal (.vstr "80")) = true
    ∧ approx_equal_decimal (safe_decimal (.vstr "80.01")) (safe_decimal (.vstr "80.0")) = false
    ∧ valueEq (norm_value_for_field dm0 (.vstr "150000.00") "Annual Salary")
        (norm_value_for_field dm0 (.vstr "150000") "Annual Salary") = true
    ∧ valueEq (norm_value_for_field dm0 (.vstr "80.0") "Hourly Rate")
        (norm_value_for_field dm0 (.vstr "80") "Hourly Rate") = true := by
  refine ⟨?_, ?_, ?_, ?_, ?_⟩ <;> decide

/-- C1 (code evaluation at the failing input): because `"voluntary"` occurs
    inside `"involuntary"` as a substring, `termination_reason_equivalent`
    accepts an involuntary authoritative value against a voluntary source
    value, and the comparison engine reports `OK` — the dedicated
    both-involuntary branch is unreachable dead code. -/
theorem c1_termination_involuntary_ok_eval :
    termination_reason_equivalent (.vstr "Voluntary")
      (.vstr "Involuntary Termination of Employment") = true
    ∧ statusFor dm0 ["Termination Reason"] ["Term Reason"] ""
        (some [("Termination Reason", .vstr "Voluntary")])
        (some [("Term Reason", .vstr "Involuntary Termination of Employment")])
        "Termination Reason" "Term Reason" = "OK" := by
  refine ⟨?_, ?_⟩ <;> decide

/-- C3 (counterexample): the source value `"9810-1"` has five digits already,
    so it normalizes to `"98101"`, not `"09810"`, and the comparison is a
    `MISMATCH`, not `OK`. -/
theorem c3_zip_example_counterexample :
    (norm_zip_first5 (.vstr "9810-1") == "09810") = false
    ∧ norm_zip_first5 (.vstr "9810-1") = "98101"
    ∧ (statusFor dm0 ["Zip Code"] ["Zip"] ""
        (some [("Zip Code", .vstr "9810-1")]) (some [("Zip", .vstr "098101")])
        "Zip Code" "Zip" == "OK") = false := by
  refine ⟨?_, ?_, ?_⟩ <;> decide

/-- C3 (amended): `norm_zip_first5` is exactly the claim's general rule
    (digits only, left-zero-padded to 5, truncated to the first 5), but on the
    claim's concrete inputs the two sides normalize to `"98101"` and `"09810"`
    respectively, so the status is `MISMATCH`. -/
theorem c3_zip_rule_amended :
    (∀ v : Value, norm_zip_first5 v = zip_spec_rule v)
    ∧ norm_zip_first5 (.vstr "9810-1") = "98101"
    ∧ norm_zip_first5 (.vstr "098101") = "09810"
    ∧ statusFor dm0 ["Zip Code"] ["Zip"] ""
        (some [("Zip Code", .vstr "9810-1")]) (some [("Zip", .vstr "098101")])
        "Zip Code" "Zip" = "MISMATCH" := by
  refine ⟨?_, by decide, by decide, by decide⟩
  intro v
  unfold norm_zip_first5 zip_spec_rule
  by_cases h : (digits_only v).data.isEmpty
  · simp [h]
  · simp only [h, Bool.false_eq_true, if_false]
    have hlen : 0 < (digits_only v).data.length := by
      cases hd : (digits_only v).data with
      | nil => rw [hd] at h; simp at h
      | cons a l => simp [hd]
    congr 1
    split
    · rfl
    · rename_i hP
      have h5 : ¬ (digits_only v).data.length < 5 := fun hlt =>
        hP (by simp only [Bool.and_eq_true, decide_eq_true_eq]; exact ⟨hlen, hlt⟩)
      have hz : 5 - (digits_only v).data.length = 0 := by omega
      unfold padZeros
      rw [show (5 - (digits_only v).data.length) = 0 from hz]
      rfl

/-- C9 (code evaluation): the identifier-row exclusion on line 348 is written
    `m["_uz_norm"] not in [...]`, which under CPython/pandas semantics raises
    on every input instead of filtering, so the loader never returns a mapping
    table (shown concretely on a two-row mapping sheet, and in general for
    every resolver and every input). -/
theorem c9_mapping_loader_crashes :
    read_mapping_sheet id [("Employee ID", "Employee_Code"), ("Zip Code", "Zip")]
      = Except.error PyErr.valueError
    ∧ ∀ (resolver : String → String) (entries : List (String × String)),
        exceptIsOk (read_mapping_sheet resolver entries) = false := by
  refine ⟨rfl, ?_⟩
  intro resolver entries
  unfold read_mapping_sheet
  dsimp only
  split <;> rfl

/-- C2 (counterexample): authoritative `"Attendance Violation"` with source
    `"Other"` is not `OK`; there is no reason-bucket table, so the engine falls
    through to the generic comparison and reports `MISMATCH`. -/
theorem c2_attendance_other_counterexample :
    (statusFor dm0 ["Termination Reason"] ["Term Reason"] ""
        (some [("Termination Reason", .vstr "Other")])
        (some [("Term Reason", .vstr "Attendance Violation")])
        "Termination Reason" "Term Reason" == "OK") = false
    ∧ statusFor dm0 ["Termination Reason"] ["Term Reason"] ""
        (some [("Termination Reason", .vstr "Other")])
        (some [("Term Reason", .vstr "Attendance Violation")])
        "Termination Reason" "Term Reason" = "MISMATCH" := by
  refine ⟨?_, ?_⟩ <;> decide

/-- C2 (amended): on a termination-reason field, when the voluntary/involuntary
    keyword rule does not decide, the engine consults no bucket table: it falls
    directly through to the generic normalize-and-compare two-way result. -/
theorem c2_termination_fallthrough (dm : DateModel) (uzioCols pcCols : List String)
    (payCtx : String) (uzRow pcRow : Option Row) (uzField pcCol : String)
    (hu : uzRow.isSome = true) (hp : pcRow.isSome = true)
    (hcol : (pcCol == "" || !pcCols.contains pcCol) = false)
    (hf : uzioCols.contains uzField = true)
    (ht : containsS (fieldNorm uzField) "termination reason" = true)
    (hne : termination_reason_equivalent (valOfUz uzioCols uzRow uzField)
        (valOfPc pcCols pcRow pcCol) = false) :
    statusFor dm uzioCols pcCols payCtx uzRow pcRow uzField pcCol =
      compare2 (norm_value_for_field dm (valOfUz uzioCols uzRow uzField) uzField)
        (norm_value_for_field dm (valOfPc pcCols pcRow pcCol) uzField) := by
  simp at hcol hf
  simp [statusFor, hu, hp, ht, hne, hcol.1, hcol.2, hf]

/-- Witness for `c2_termination_fallthrough` at the claim's concrete input. -/
theorem c2_termination_fallthrough_witness :
    statusFor dm0 ["Termination Reason"] ["Term Reason"] ""
      (some [("Termination Reason", .vstr "Other")])
      (some [("Term Reason", .vstr "Attendance Violation")])
      "Termination Reason" "Term Reason" =
      compare2
        (norm_value_for_field dm0
          (valOfUz ["Termination Reason"] (some [("Termination Reason", .vstr "Other")])
            "Termination Reason") "Termination Reason")
        (norm_value_for_field dm0
          (valOfPc ["Term Reason"] (some [("Term Reason", .vstr "Attendance Violation")])
            "Term Reason") "Termination Reason") :=
  c2_termination_fallthrough dm0 ["Termination Reason"] ["Term Reason"] ""
    (some [("Termination Reason", .vstr "Other")])
    (some [("Term Reason", .vstr "Attendance Violation")])
    "Termination Reason" "Term Reason"
    (by decide) (by decide) (by decide) (by decide) (by decide) (by decide)

/-- C4 (counterexample): for an hourly employee, an `"Annual Salary"` field
    with a non-blank source value is compared normally — values 100 vs 200
    give `MISMATCH`, not a forced `OK`. -/
theorem c4_override_counterexample :
    (statusFor dm0 ["Annual Salary"] ["Annual_Salary"] "hourly"
        (some [("Annual Salary", .vstr "100")]) (some [("Annual_Salary", .vstr "200")])
        "Annual Salary" "Annual_Salary" == "OK") = false
    ∧ statusFor dm0 ["Annual Salary"] ["Annual_Salary"] "hourly"
        (some [("Annual Salary", .vstr "100")]) (some [("Annual_Salary", .vstr "200")])
        "Annual Salary" "Annual_Salary" = "MISMATCH" := by
  refine ⟨?_, ?_⟩ <;> decide

/-- C4 (amended): the conditional overrides force `OK` only when the UZIO-side
    value is blank: for hourly pay type on an annual-salary field, and for
    salaried pay type on hourly-rate / working-hours fields, a blank source
    cell yields `OK` regardless of the authoritative value. -/
theorem c4_override_blank_ok (dm : DateModel) (uzioCols pcCols : List String)
    (payCtx : String) (uzRow pcRow : Option Row) (uzField pcCol : String)
    (hu : uzRow.isSome = true) (hp : pcRow.isSome = true)
    (hcol : (pcCol == "" || !pcCols.contains pcCol) = false)
    (hf : uzioCols.contains uzField = true)
    (hterm : containsS (fieldNorm uzField) "termination reason" = false)
    (hblank : ctxBlank (valOfUz uzioCols uzRow uzField) = true)
    (hcase : (payCtx = "hourly" ∧ containsS (fieldNorm uzField) "annual salary" = true)
      ∨ (payCtx = "salary"
          ∧ (containsS (fieldNorm uzField) "hourly pay rate"
              || containsS (fieldNorm uzField) "hourly rate"
              || containsS (fieldNorm uzField) "working hours per week") = true)) :
    statusFor dm uzioCols pcCols payCtx uzRow pcRow uzField pcCol = "OK" := by
  simp at hcol hf
  rcases hcase with ⟨hc, hfield⟩ | ⟨hc, hfield⟩ <;> subst hc <;>
    simp [statusFor, hu, hp, hcol.1, hcol.2, hf, hterm, hfield, hblank]

/-- Witness for `c4_override_blank_ok`: an hourly employee with a blank UZIO
    annual salary and a populated Paycom value is reported `OK`. -/
theorem c4_override_blank_ok_witness :
    statusFor dm0 ["Annual Salary"] ["Annual_Salary"] "hourly"
      (some [("Annual Salary", .vstr "")]) (some [("Annual_Salary", .vstr "50000")])
      "Annual Salary" "Annual_Salary" = "OK" :=
  c4_override_blank_ok dm0 ["Annual Salary"] ["Annual_Salary"] "hourly"
    (some [("Annual Salary", .vstr "")]) (some [("Annual_Salary", .vstr "50000")])
    "Annual Salary" "Annual_Salary"
    (by decide) (by decide) (by decide) (by decide) (by decide) (by decide)
    (Or.inl ⟨rfl, by decide⟩)

/-- C5: every detail row whose employee is present in exactly one sheet gets
    the corresponding missing-record status — `MISSING_IN_UZIO` when the
    employee is absent from the UZIO sheet, `MISSING_IN_PAYCOM` when absent
    from the Paycom sheet — and hence never any other status. -/
theorem c5_missing_record_statuses (dm : DateModel) (uzio paycom : PTable)
    (mapping : List MapEntry) (r : DetailRow) (hr : r ∈ compareRows dm uzio paycom mapping) :
    (lookupRow uzio r.employee = none → (lookupRow paycom r.employee).isSome = true →
      r.status = "MISSING_IN_UZIO")
    ∧ ((lookupRow uzio r.employee).isSome = true → lookupRow paycom r.employee = none →
      r.status = "MISSING_IN_PAYCOM") := by
  simp only [compareRows, List.mem_flatMap] at hr
  rcases hr with ⟨emp, hemp, hrow⟩
  simp only [rowsForEmp, List.mem_map] at hrow
  rcases hrow with ⟨m, hm, heq⟩
  subst heq
  dsimp only
  constructor
  · intro h1 h2
    rcases Option.isSome_iff_exists.mp h2 with ⟨pr, hpr⟩
    simp [statusFor, h1, hpr]
  · intro h1 h2
    rcases Option.isSome_iff_exists.mp h1 with ⟨ur, hur⟩
    simp [statusFor, h2, hur]

/-- Witness for `c5_missing_record_statuses` on a concrete pair of sheets
    where employee `"7"` exists only in the Paycom sheet. -/
theorem c5_missing_record_statuses_witness :
    ((compareRows dm0 uzT0 pcT0 mp0).getD 0 default).status = "MISSING_IN_UZIO" :=
  (c5_missing_record_statuses dm0 uzT0 pcT0 mp0 _ (by decide)).1 (by decide) (by decide)

/-- `compare2` only produces `OK` or `MISMATCH`. -/
theorem compare2_mem (u p : Value) : compare2 u p ∈ statusList := by
  unfold compare2; split <;> simp [statusList]

/-- `compare2dec` only produces `OK` or `MISMATCH`. -/
theorem compare2dec_mem (u p : Value) : compare2dec u p ∈ statusList := by
  unfold compare2dec
  repeat' split
  all_goals simp [statusList]

/-- `genericCompare` only produces the four value-level statuses. -/
theorem genericCompare_mem (u p : Value) : genericCompare u p ∈ statusList := by
  unfold genericCompare
  repeat' split
  all_goals simp [statusList]

set_option maxHeartbeats 1600000 in
/-- Every status the decision procedure can produce is one of the eight pivot
    columns. -/
theorem statusFor_mem (dm : DateModel) (a b : List String) (c : String)
    (d e : Option Row) (f g : String) : statusFor dm a b c d e f g ∈ statusList := by
  unfold statusFor
  dsimp only
  repeat' split
  all_goals
    first
      | apply compare2_mem
      | apply compare2dec_mem
      | apply genericCompare_mem
      | simp [statusList]

/-- Every produced detail row's status is one of the eight pivot columns. -/
theorem compareRows_status_mem (dm : DateModel) (uzio paycom : PTable)
    (mapping : List MapEntry) (r : DetailRow) (hr : r ∈ compareRows dm uzio paycom mapping) :
    r.status ∈ statusList := by
  simp only [compareRows, List.mem_flatMap] at hr
  rcases hr with ⟨emp, hemp, hrow⟩
  simp only [rowsForEmp, List.mem_map] at hrow
  rcases hrow with ⟨m, hm, heq⟩
  subst heq
  exact statusFor_mem dm uzio.cols paycom.cols _ _ _ m.uzioCol m.paycomResolved

theorem length_filter_cons {α : Type} (p : α → Bool) (a : α) (l : List α) :
    (List.filter p (a :: l)).length = (if p a then 1 else 0) + (List.filter p l).length := by
  simp only [List.filter_cons]
  split <;> simp [Nat.add_comm]

theorem countFieldStatus_cons (r : DetailRow) (rows : List DetailRow) (f s : String) :
    countFieldStatus (r :: rows) f s =
      (if r.field == f && r.status == s then 1 else 0) + countFieldStatus rows f s := by
  unfold countFieldStatus
  exact length_filter_cons _ r rows

theorem countField_cons (r : DetailRow) (rows : List DetailRow) (f : String) :
    countField (r :: rows) f = (if r.field == f then 1 else 0) + countField rows f := by
  unfold countField
  exact length_filter_cons _ r rows

theorem sum_map_add {α : Type} (l : List α) (g h : α → Nat) :
    (l.map (fun s => g s + h s)).sum = (l.map g).sum + (l.map h).sum := by
  induction l with
  | nil => simp
  | cons a l ih => simp [ih]; omega

/-- Summing the one-hot status indicator over the eight pivot columns counts
    the row exactly once (when its field matches). -/
theorem sum_ite_one (b : Bool) (st : String) (hst : st ∈ statusList) :
    (statusList.map (fun s => if b && (st == s) then 1 else 0)).sum = if b then 1 else 0 := by
  simp only [statusList] at hst
  simp only [List.mem_cons, List.not_mem_nil, or_false] at hst
  rcases hst with h | h | h | h | h | h | h | h <;> subst h <;> cases b <;> simp [statusList]

/-- The pivot row sum equals the per-field row count, for any detail table
    whose statuses lie in the eight pivot columns. -/
theorem fieldTotal_eq_aux (f : String) :
    ∀ rows : List DetailRow, (∀ r ∈ rows, r.status ∈ statusList) →
      fieldTotal rows f = countField rows f := by
  intro rows
  induction rows with
  | nil => intro _; simp [fieldTotal, countFieldStatus, countField, statusList]
  | cons r rows ih =>
    intro h
    have hr : r.status ∈ statusList := h r (by simp)
    have ihr := ih (fun x hx => h x (by simp [hx]))
    unfold fieldTotal at ihr ⊢
    simp only [countFieldStatus_cons]
    rw [sum_map_add, ihr, sum_ite_one (r.field == f) r.status hr, countField_cons]

/-- C10: in the per-field summary pivot, the `Total` column of every field
    equals the number of detail rows for that field: the row sum over the
    eight status columns counts every detail row exactly once. -/
theorem c10_field_total (dm : DateModel) (uzio paycom : PTable)
    (mapping : List MapEntry) (f : String) :
    fieldTotal (compareRows dm uzio paycom mapping) f
      = countField (compareRows dm uzio paycom mapping) f :=
  fieldTotal_eq_aux f (compareRows dm uzio paycom mapping)
    (fun r hr => compareRows_status_mem dm uzio paycom mapping r hr)

/-! ### Character-level lemmas -/

theorem toNat_ofNat_small : ∀ n, n < 123 → (Char.ofNat n).toNat = n := by decide

theorem isUpperCh_bounds {c : Char} (h : isUpperCh c = true) :
    65 ≤ c.toNat ∧ c.toNat ≤ 90 := by
  simpa [isUpperCh, Bool.and_eq_true, decide_eq_true_eq] using h

theorem isLowerCh_bounds {c : Char} (h : isLowerCh c = true) :
    97 ≤ c.toNat ∧ c.toNat ≤ 122 := by
  simpa [isLowerCh, Bool.and_eq_true, decide_eq_true_eq] using h

theorem isDigitCh_bounds {c : Char} (h : isDigitCh c = true) :
    48 ≤ c.toNat ∧ c.toNat ≤ 57 := by
  simpa [isDigitCh, Bool.and_eq_true, decide_eq_true_eq] using h

theorem asciiLower_eq_of_not_upper {c : Char} (h : isUpperCh c = false) :
    asciiLower c = c := by
  simp [asciiLower, h]

theorem asciiLower_toNat_of_upper {c : Char} (h : isUpperCh c = true) :
    (asciiLower c).toNat = c.toNat + 32 := by
  have hb := isUpperCh_bounds h
  simp [asciiLower, h, toNat_ofNat_small (c.toNat + 32) (by omega)]

theorem asciiUpper_eq_of_not_lower {c : Char} (h : isLowerCh c = false) :
    asciiUpper c = c := by
  simp [asciiUpper, h]

theorem asciiUpper_toNat_of_lower {c : Char} (h : isLowerCh c = true) :
    (asciiUpper c).toNat = c.toNat - 32 := by
  have hb := isLowerCh_bounds h
  simp [asciiUpper, h, toNat_ofNat_small (c.toNat - 32) (by omega)]

theorem isSpaceCh_asciiLower (c : Char) : isSpaceCh (asciiLower c) = isSpaceCh c := by
  by_cases h : isUpperCh c = true
  · have hb := isUpperCh_bounds h
    have h2 := asciiLower_toNat_of_upper h
    have hl : isSpaceCh (asciiLower c) = false := by
      simp only [isSpaceCh, h2]
      simp only [Bool.or_eq_false_iff, decide_eq_false_iff_not]
      omega
    have hr : isSpaceCh c = false := by
      simp only [isSpaceCh]
      simp only [Bool.or_eq_false_iff, decide_eq_false_iff_not]
      omega
    rw [hl, hr]
  · rw [asciiLower_eq_of_not_upper (by simpa using h)]

theorem isUpperCh_asciiLower (c : Char) : isUpperCh (asciiLower c) = false := by
  by_cases h : isUpperCh c = true
  · have hb := isUpperCh_bounds h
    have h2 := asciiLower_toNat_of_upper h
    simp only [isUpperCh, h2]
    simp only [Bool.and_eq_false_iff, decide_eq_false_iff_not]
    omega
  · rw [asciiLower_eq_of_not_upper (by simpa using h)]
    simpa using h

theorem isAlnumCh_asciiLower {c : Char} (h : isAlnumCh c = true) :
    isAlnumCh (asciiLower c) = true := by
  by_cases hu : isUpperCh c = true
  · have hb := isUpperCh_bounds hu
    have h2 := asciiLower_toNat_of_upper hu
    simp only [isAlnumCh, isAlphaCh, isLowerCh, isUpperCh, isDigitCh, h2]
    simp only [Bool.or_eq_true, Bool.and_eq_true, decide_eq_true_eq]
    omega
  · rw [asciiLower_eq_of_not_upper (by simpa using hu)]
    exact h

theorem charOK_asciiLower {c : Char} (h : (isAlnumCh c || c == ' ') = true) :
    charOK (asciiLower c) = true := by
  rcases Bool.or_eq_true_iff.mp h with h1 | h1
  · simp only [charOK, Bool.and_eq_true, Bool.not_eq_true']
    exact ⟨isUpperCh_asciiLower c, by simp [isAlnumCh_asciiLower h1]⟩
  · have : c = ' ' := by simpa using h1
    subst this
    decide

theorem charOK_parts {c : Char} (h : charOK c = true) :
    isUpperCh c = false ∧ (isAlnumCh c || c == ' ') = true := by
  simp only [charOK, Bool.and_eq_true, Bool.not_eq_true'] at h
  exact h

theorem charOK_not_upper {c : Char} (h : charOK c = true) : isUpperCh c = false :=
  (charOK_parts h).1

theorem charOK_fix {c : Char} (h : charOK c = true) : asciiLower c = c :=
  asciiLower_eq_of_not_upper (charOK_not_upper h)

theorem charOK_alnum_or_space {c : Char} (h : charOK c = true) :
    (isAlnumCh c || c == ' ') = true :=
  (charOK_parts h).2

theorem charOK_space_eq {c : Char} (h : charOK c = true) (hs : isSpaceCh c = true) :
    c = ' ' := by
  rcases Bool.or_eq_true_iff.mp (charOK_alnum_or_space h) with h1 | h1
  · exfalso
    simp only [isSpaceCh, Bool.or_eq_true, decide_eq_true_eq] at hs
    rcases Bool.or_eq_true_iff.mp h1 with h2 | h2
    · rcases Bool.or_eq_true_iff.mp (by simpa [isAlphaCh] using h2) with h3 | h3
      · have := isUpperCh_bounds h3; omega
      · have := isLowerCh_bounds h3; omega
    · have := isDigitCh_bounds h2; omega
  · simpa using h1

theorem isDigitCh_not_space {c : Char} (h : isDigitCh c = true) : isSpaceCh c = false := by
  have hb := isDigitCh_bounds h
  simp only [isSpaceCh, Bool.or_eq_false_iff, decide_eq_false_iff_not]
  omega

theorem isDigitCh_not_upper {c : Char} (h : isDigitCh c = true) : isUpperCh c = false := by
  have hb := isDigitCh_bounds h
  simp only [isUpperCh, Bool.and_eq_false_iff, decide_eq_false_iff_not]
  omega

theorem isAlphaCh_not_space {c : Char} (h : isAlphaCh c = true) : isSpaceCh c = false := by
  have hb : 65 ≤ c.toNat ∧ c.toNat ≤ 90 ∨ 97 ≤ c.toNat ∧ c.toNat ≤ 122 := by
    rcases Bool.or_eq_true_iff.mp (by simpa [isAlphaCh] using h) with h1 | h1
    · exact Or.inl (isUpperCh_bounds h1)
    · exact Or.inr (isLowerCh_bounds h1)
  simp only [isSpaceCh, Bool.or_eq_false_iff, decide_eq_false_iff_not]
  omega

theorem isAlphaCh_asciiUpper {c : Char} (h : isAlphaCh c = true) :
    isAlphaCh (asciiUpper c) = true := by
  by_cases hl : isLowerCh c = true
  · have hb := isLowerCh_bounds hl
    have h2 := asciiUpper_toNat_of_lower hl
    simp only [isAlphaCh, isUpperCh, isLowerCh, h2]
    simp only [Bool.or_eq_true, Bool.and_eq_true, decide_eq_true_eq]
    omega
  · rw [asciiUpper_eq_of_not_lower (by simpa using hl)]
    exact h

theorem asciiUpper_idem {c : Char} (h : isAlphaCh c = true) :
    asciiUpper (asciiUpper c) = asciiUpper c := by
  by_cases hl : isLowerCh c = true
  · have hb := isLowerCh_bounds hl
    have h2 := asciiUpper_toNat_of_lower hl
    have : isLowerCh (asciiUpper c) = false := by
      simp only [isLowerCh, h2]
      simp only [Bool.and_eq_false_iff, decide_eq_false_iff_not]
      omega
    exact asciiUpper_eq_of_not_lower this
  · have e : asciiUpper c = c := asciiUpper_eq_of_not_lower (by simpa using hl)
    rw [e, e]

/-! ### Strip, collapse and map lemmas -/

theorem dropTrail_eq_self (p : Char → Bool) :
    ∀ l : List Char, (∀ c ∈ l, p c = false) → dropTrail p l = l := by
  intro l
  induction l with
  | nil => intro _; rfl
  | cons c r ih =>
    intro h
    have hr := ih (fun x hx => h x (List.mem_cons_of_mem _ hx))
    unfold dropTrail
    rw [hr]
    cases r with
    | nil => simp [h c (by simp)]
    | cons d t => rfl

theorem dropTrail_fix (p : Char → Bool) :
    ∀ l : List Char, lastNotP p l = true → dropTrail p l = l := by
  intro l
  induction l with
  | nil => intro _; rfl
  | cons c r ih =>
    intro h
    cases r with
    | nil =>
      have hc : p c = false := by simpa [lastNotP] using h
      simp [dropTrail, hc]
    | cons d t =>
      have hr := ih (by simpa [lastNotP] using h)
      unfold dropTrail
      rw [hr]

theorem dropTrail_lastNot (p : Char → Bool) :
    ∀ l : List Char, lastNotP p (dropTrail p l) = true := by
  intro l
  induction l with
  | nil => rfl
  | cons c r ih =>
    unfold dropTrail
    cases hdt : dropTrail p r with
    | nil =>
      by_cases h : p c = true
      · simp [h, lastNotP]
      · simp [h, lastNotP]
    | cons d t =>
      have : lastNotP p (d :: t) = true := hdt ▸ ih
      simpa [lastNotP] using this

theorem dropTrail_headNot (p q : Char → Bool) (l : List Char)
    (h : headNotP q l = true) : headNotP q (dropTrail p l) = true := by
  cases l with
  | nil => rfl
  | cons c r =>
    unfold dropTrail
    cases hdt : dropTrail p r with
    | nil =>
      by_cases hp : p c = true
      · simp [hp, headNotP]
      · simpa [hp, headNotP] using h
    | cons d t => simpa [headNotP] using h

theorem dropTrail_prefix (p : Char → Bool) :
    ∀ l : List Char, ∃ t, dropTrail p l ++ t = l := by
  intro l
  induction l with
  | nil => exact ⟨[], rfl⟩
  | cons c r ih =>
    obtain ⟨t2, ht2⟩ := ih
    unfold dropTrail
    cases hdt : dropTrail p r with
    | nil =>
      by_cases hp : p c = true
      · exact ⟨c :: r, by simp [hp]⟩
      · refine ⟨r, by simp [hp]⟩
    | cons d t =>
      refine ⟨t2, ?_⟩
      rw [hdt] at ht2
      simpa using congrArg (c :: ·) ht2

theorem dropTrail_subset (p : Char → Bool) :
    ∀ l : List Char, ∀ c ∈ dropTrail p l, c ∈ l := by
  intro l
  induction l with
  | nil => intro c hc; exact absurd hc (by simp [dropTrail])
  | cons a r ih =>
    intro c hc
    unfold dropTrail at hc
    revert hc
    cases hdt : dropTrail p r with
    | nil =>
      by_cases hp : p a = true <;> simp [hp]
      intro h; exact Or.inl h
    | cons d t =>
      intro hc
      rcases List.mem_cons.mp hc with h | h
      · subst h; exact List.mem_cons_self _ _
      · exact List.mem_cons_of_mem _ (ih c (by rw [hdt]; exact h))

theorem mem_dropWhile (p : Char → Bool) :
    ∀ l : List Char, ∀ c ∈ l.dropWhile p, c ∈ l := by
  intro l
  induction l with
  | nil => intro c hc; simpa using hc
  | cons a r ih =>
    intro c hc
    by_cases hp : p a = true
    · rw [List.dropWhile_cons_of_pos hp] at hc
      exact List.mem_cons_of_mem _ (ih c hc)
    · rw [List.dropWhile_cons_of_neg (by simpa using hp)] at hc
      exact hc

theorem dropWhile_eq_self_of_head (p : Char → Bool) (l : List Char)
    (h : headNotP p l = true) : l.dropWhile p = l := by
  cases l with
  | nil => rfl
  | cons c r =>
    have : p c = false := by simpa [headNotP] using h
    simp [List.dropWhile_cons, this]

theorem headNotP_dropWhile (p : Char → Bool) :
    ∀ l : List Char, headNotP p (l.dropWhile p) = true := by
  intro l
  induction l with
  | nil => rfl
  | cons c r ih =>
    by_cases h : p c = true
    · simpa [List.dropWhile_cons, h] using ih
    · simp [List.dropWhile_cons, h, headNotP]

theorem pyStripL_eq_self {l : List Char} (h : ∀ c ∈ l, isSpaceCh c = false) :
    pyStripL l = l := by
  have h1 : headNotP isSpaceCh l = true := by
    cases l with
    | nil => rfl
    | cons c r => simpa [headNotP] using h c (by simp)
  unfold pyStripL
  rw [dropWhile_eq_self_of_head _ _ h1, dropTrail_eq_self _ _ h]

theorem headNotP_pyStripL (l : List Char) : headNotP isSpaceCh (pyStripL l) = true :=
  dropTrail_headNot _ _ _ (headNotP_dropWhile _ _)

theorem lastNotP_pyStripL (l : List Char) : lastNotP isSpaceCh (pyStripL l) = true :=
  dropTrail_lastNot _ _

theorem pyStripL_fix {l : List Char} (h1 : headNotP isSpaceCh l = true)
    (h2 : lastNotP isSpaceCh l = true) : pyStripL l = l := by
  unfold pyStripL
  rw [dropWhile_eq_self_of_head _ _ h1, dropTrail_fix _ _ h2]

theorem pyStripL_idem (l : List Char) : pyStripL (pyStripL l) = pyStripL l :=
  pyStripL_fix (headNotP_pyStripL l) (lastNotP_pyStripL l)

theorem pyStripL_subset (l : List Char) : ∀ c ∈ pyStripL l, c ∈ l := by
  intro c hc
  exact mem_dropWhile _ _ _ (dropTrail_subset _ _ _ hc)

theorem noAdjSp_tail {a : Char} {r : List Char} (h : noAdjSp (a :: r) = true) :
    noAdjSp r = true := by
  cases r with
  | nil => rfl
  | cons b t =>
    simp only [noAdjSp, Bool.and_eq_true] at h
    exact h.2

theorem noAdjSp_dropWhile (p : Char → Bool) :
    ∀ l : List Char, noAdjSp l = true → noAdjSp (l.dropWhile p) = true := by
  intro l
  induction l with
  | nil => intro h; exact h
  | cons c r ih =>
    intro h
    by_cases hp : p c = true
    · rw [List.dropWhile_cons_of_pos hp]
      exact ih (noAdjSp_tail h)
    · rw [List.dropWhile_cons_of_neg (by simpa using hp)]
      exact h

theorem noAdjSp_append_left :
    ∀ a b : List Char, noAdjSp (a ++ b) = true → noAdjSp a = true := by
  intro a
  induction a with
  | nil => intro b _; rfl
  | cons x r ih =>
    intro b h
    cases r with
    | nil => rfl
    | cons y t =>
      simp only [List.cons_append, noAdjSp, Bool.and_eq_true] at h ⊢
      refine ⟨h.1, ?_⟩
      have := ih b (by simpa [List.cons_append] using h.2)
      simpa [noAdjSp] using this

theorem noAdjSp_dropTrail (p : Char → Bool) (l : List Char) (h : noAdjSp l = true) :
    noAdjSp (dropTrail p l) = true := by
  obtain ⟨t, ht⟩ := dropTrail_prefix p l
  exact noAdjSp_append_left _ t (by rw [ht]; exact h)

theorem noAdjSp_pyStripL (l : List Char) (h : noAdjSp l = true) :
    noAdjSp (pyStripL l) = true :=
  noAdjSp_dropTrail _ _ (noAdjSp_dropWhile _ _ h)

theorem collapseSp_space_all :
    ∀ l : List Char, (collapseSp l).all (fun c => !isSpaceCh c || c == ' ') = true := by
  intro l
  induction l with
  | nil => rfl
  | cons c r ih =>
    cases r with
    | nil =>
      by_cases h : isSpaceCh c = true <;> simp [collapseSp, h]
    | cons d t =>
      by_cases h : (isSpaceCh c && isSpaceCh d) = true
      · simpa [collapseSp, h] using ih
      · by_cases hc : isSpaceCh c = true
        · have hd : isSpaceCh d = false := by
            rcases Bool.and_eq_false_iff.mp (by simpa using h) with h1 | h1
            · exact absurd hc (by simp [h1])
            · exact h1
          simpa [collapseSp, h, hc, hd] using ih
        · simpa [collapseSp, h, hc] using ih

theorem collapseSp_head_not_space (d : Char) (t : List Char) (hd : isSpaceCh d = false) :
    headNotP isSpaceCh (collapseSp (d :: t)) = true := by
  cases t with
  | nil => simp [collapseSp, hd, headNotP]
  | cons e t2 => simp [collapseSp, hd, headNotP]

theorem collapseSp_noAdj : ∀ l : List Char, noAdjSp (collapseSp l) = true := by
  intro l
  induction l with
  | nil => rfl
  | cons c r ih =>
    cases r with
    | nil =>
      by_cases h : isSpaceCh c = true <;> simp [collapseSp, h, noAdjSp]
    | cons d t =>
      by_cases h : (isSpaceCh c && isSpaceCh d) = true
      · simpa [collapseSp, h] using ih
      · by_cases hc : isSpaceCh c = true
        · have hd : isSpaceCh d = false := by
            rcases Bool.and_eq_false_iff.mp (by simpa using h) with h1 | h1
            · exact absurd hc (by simp [h1])
            · exact h1
          have hhead := collapseSp_head_not_space d t hd
          rw [show collapseSp (c :: d :: t) = ' ' :: collapseSp (d :: t) by
            simp [collapseSp, h, hc, hd]]
          cases hX : collapseSp (d :: t) with
          | nil => rfl
          | cons x xs =>
            rw [hX] at hhead ih
            simp only [noAdjSp, Bool.and_eq_true]
            refine ⟨?_, by simpa [noAdjSp] using ih⟩
            have hx : isSpaceCh x = false := by simpa [headNotP] using hhead
            simp [hx]
        · rw [show collapseSp (c :: d :: t) = c :: collapseSp (d :: t) by
            simp [collapseSp, h, hc]]
          cases hX : collapseSp (d :: t) with
          | nil => rfl
          | cons x xs =>
            rw [hX] at ih
            simp only [noAdjSp, Bool.and_eq_true]
            refine ⟨by simp [hc], by simpa [noAdjSp] using ih⟩

theorem collapseSp_mem : ∀ (l : List Char) (c : Char), c ∈ collapseSp l → c = ' ' ∨ c ∈ l := by
  intro l
  induction l with
  | nil => intro c hc; simp [collapseSp] at hc
  | cons a r ih =>
    intro c hc
    cases r with
    | nil =>
      by_cases h : isSpaceCh a = true <;> simp [collapseSp, h] at hc
      · exact Or.inl hc
      · exact Or.inr (by simp [hc])
    | cons d t =>
      by_cases h : (isSpaceCh a && isSpaceCh d) = true
      · rw [show collapseSp (a :: d :: t) = collapseSp (d :: t) by simp [collapseSp, h]] at hc
        rcases ih c hc with h1 | h1
        · exact Or.inl h1
        · exact Or.inr (List.mem_cons_of_mem _ h1)
      · by_cases hc1 : isSpaceCh a = true
        · have hd : isSpaceCh d = false := by
            rcases Bool.and_eq_false_iff.mp (by simpa using h) with h1 | h1
            · exact absurd hc1 (by simp [h1])
            · exact h1
          rw [show collapseSp (a :: d :: t) = ' ' :: collapseSp (d :: t) by
            simp [collapseSp, h, hc1, hd]] at hc
          rcases List.mem_cons.mp hc with h1 | h1
          · exact Or.inl h1
          · rcases ih c h1 with h2 | h2
            · exact Or.inl h2
            · exact Or.inr (List.mem_cons_of_mem _ h2)
        · rw [show collapseSp (a :: d :: t) = a :: collapseSp (d :: t) by
            simp [collapseSp, h, hc1]] at hc
          rcases List.mem_cons.mp hc with h1 | h1
          · subst h1; exact Or.inr (List.mem_cons_self _ _)
          · rcases ih c h1 with h2 | h2
            · exact Or.inl h2
            · exact Or.inr (List.mem_cons_of_mem _ h2)

theorem collapseSp_fix :
    ∀ l : List Char, l.all (fun c => !isSpaceCh c || c == ' ') = true →
      noAdjSp l = true → collapseSp l = l := by
  intro l
  induction l with
  | nil => intro _ _; rfl
  | cons c r ih =>
    intro hall hadj
    have hc' : (!isSpaceCh c || c == ' ') = true := by
      have := List.all_eq_true.mp hall c (by simp)
      simpa using this
    cases r with
    | nil =>
      by_cases h : isSpaceCh c = true
      · have : c = ' ' := by
          rcases Bool.or_eq_true_iff.mp hc' with h1 | h1
          · exact absurd h (by simpa using h1)
          · simpa using h1
        simp [collapseSp, h, this]
      · simp [collapseSp, h]
    | cons d t =>
      have hd' : (!isSpaceCh d || d == ' ') = true := by
        have := List.all_eq_true.mp hall d (by simp)
        simpa using this
      have hpair : (isSpaceCh c && isSpaceCh d) = false := by
        have h1 := hadj
        simp only [noAdjSp, Bool.and_eq_true, Bool.not_eq_true'] at h1
        exact h1.1
      have hrest := ih (by
          rw [List.all_eq_true] at hall ⊢
          exact fun x hx => hall x (List.mem_cons_of_mem _ hx))
        (noAdjSp_tail hadj)
      by_cases h : isSpaceCh c = true
      · have : c = ' ' := by
          rcases Bool.or_eq_true_iff.mp hc' with h1 | h1
          · exact absurd h (by simpa using h1)
          · simpa using h1
        have hd : isSpaceCh d = false := by
          rcases Bool.and_eq_false_iff.mp hpair with h1 | h1
          · exact absurd h (by simp [h1])
          · exact h1
        rw [show collapseSp (c :: d :: t) = ' ' :: collapseSp (d :: t) by
          simp [collapseSp, h, hd], hrest, this]
      · rw [show collapseSp (c :: d :: t) = c :: collapseSp (d :: t) by
          simp [collapseSp, h], hrest]

theorem map_fix {g : Char → Char} :
    ∀ l : List Char, (∀ c ∈ l, g c = c) → l.map g = l := by
  intro l
  induction l with
  | nil => intro _; rfl
  | cons c r ih =>
    intro h
    simp [h c (by simp), ih (fun x hx => h x (List.mem_cons_of_mem _ hx))]

theorem noAdjSp_map {g : Char → Char} (hg : ∀ c, isSpaceCh (g c) = isSpaceCh c) :
    ∀ l : List Char, noAdjSp (l.map g) = noAdjSp l := by
  intro l
  induction l with
  | nil => rfl
  | cons c r ih =>
    cases r with
    | nil => rfl
    | cons d t =>
      simp only [List.map_cons, noAdjSp, hg]
      rw [show (d :: t).map g = g d :: t.map g from rfl] at ih
      rw [ih]

theorem headNotP_map {g : Char → Char} (hg : ∀ c, isSpaceCh (g c) = isSpaceCh c)
    (l : List Char) : headNotP isSpaceCh (l.map g) = headNotP isSpaceCh l := by
  cases l with
  | nil => rfl
  | cons c r => simp [headNotP, hg]

theorem lastNotP_map {g : Char → Char} (hg : ∀ c, isSpaceCh (g c) = isSpaceCh c) :
    ∀ l : List Char, lastNotP isSpaceCh (l.map g) = lastNotP isSpaceCh l := by
  intro l
  induction l with
  | nil => rfl
  | cons c r ih =>
    cases r with
    | nil => simp [lastNotP, hg]
    | cons d t =>
      simp only [List.map_cons, lastNotP]
      rw [show (d :: t).map g = g d :: t.map g from rfl] at ih
      rw [ih]

/-! ### `norm_spaces_punct` invariants -/

theorem charOK_map1 {c : Char} (h : charOK c = true) : (if c = ' ' then ' ' else c) = c := by
  by_cases he : c = ' '
  · subst he; exact absurd h (by decide)
  · simp [he]

theorem charOK_map2 {c : Char} (h : charOK c = true) :
    (if c = '-' || c = '_' || c = '/' then ' ' else c) = c := by
  have h1 : ¬c = '-' := fun he => by rw [he] at h; exact absurd h (by decide)
  have h2 : ¬c = '_' := fun he => by rw [he] at h; exact absurd h (by decide)
  have h3 : ¬c = '/' := fun he => by rw [he] at h; exact absurd h (by decide)
  simp [h1, h2, h3]

theorem charOK_map3 {c : Char} (h : charOK c = true) :
    (if !(isAlnumCh c || isSpaceCh c) then ' ' else c) = c := by
  rcases Bool.or_eq_true_iff.mp (charOK_alnum_or_space h) with h1 | h1
  · simp [h1]
  · rw [show c = ' ' by simpa using h1]
    decide

theorem charOK_space_flag {c : Char} (h : charOK c = true) :
    (!isSpaceCh c || c == ' ') = true := by
  by_cases hs : isSpaceCh c = true
  · simp [charOK_space_eq h hs]
  · have : isSpaceCh c = false := by simpa using hs
    simp [this]

theorem nspInv_parts {t : List Char} (hinv : nspInv t = true) :
    t.all charOK = true ∧ noAdjSp t = true ∧ headNotP isSpaceCh t = true
      ∧ lastNotP isSpaceCh t = true := by
  simp only [nspInv, Bool.and_eq_true] at hinv
  exact ⟨hinv.1.1.1, hinv.1.1.2, hinv.1.2, hinv.2⟩

theorem map3_mem (l : List Char) :
    ∀ c ∈ l.map (fun ch => if !(isAlnumCh ch || isSpaceCh ch) then ' ' else ch),
      (isAlnumCh c || isSpaceCh c) = true := by
  intro c hc
  rcases List.mem_map.mp hc with ⟨c0, _, heq⟩
  by_cases h : (isAlnumCh c0 || isSpaceCh c0) = true
  · rw [show c = c0 by rw [← heq]; simp [h]]
    exact h
  · rw [show c = ' ' by rw [← heq]; simp [h]]
    decide

theorem nspInv_establish (m : List Char)
    (hm : ∀ c ∈ m, (isAlnumCh c || isSpaceCh c) = true) :
    nspInv ((pyStripL (collapseSp m)).map asciiLower) = true := by
  have hOK : ((pyStripL (collapseSp m)).map asciiLower).all charOK = true := by
    rw [List.all_eq_true]
    intro x hx
    rcases List.mem_map.mp hx with ⟨c, hc, heq⟩
    rw [← heq]
    have hc2 : c ∈ collapseSp m := pyStripL_subset _ c hc
    rcases collapseSp_mem m c hc2 with h1 | h1
    · rw [h1]; decide
    · by_cases hsp : isSpaceCh c = true
      · have hceq : c = ' ' := by
          have hsp2 := List.all_eq_true.mp (collapseSp_space_all m) c hc2
          simp only [hsp] at hsp2
          simpa using hsp2
        rw [hceq]; decide
      · have halnum : isAlnumCh c = true := by
          rcases Bool.or_eq_true_iff.mp (hm c h1) with h2 | h2
          · exact h2
          · exact absurd h2 (by simpa using hsp)
        exact charOK_asciiLower (by simp [halnum])
  have hAdj : noAdjSp ((pyStripL (collapseSp m)).map asciiLower) = true := by
    rw [noAdjSp_map isSpaceCh_asciiLower]
    exact noAdjSp_pyStripL _ (collapseSp_noAdj m)
  have hHead : headNotP isSpaceCh ((pyStripL (collapseSp m)).map asciiLower) = true := by
    rw [headNotP_map isSpaceCh_asciiLower]
    exact headNotP_pyStripL _
  have hLast : lastNotP isSpaceCh ((pyStripL (collapseSp m)).map asciiLower) = true := by
    rw [lastNotP_map isSpaceCh_asciiLower]
    exact lastNotP_pyStripL _
  simp [nspInv, hOK, hAdj, hHead, hLast]

theorem nspInv_nsp (x : Value) : nspInv (norm_spaces_punct x).data = true := by
  unfold norm_spaces_punct
  by_cases hb : isBlank x = true
  · simp only [hb, if_true]
    decide
  · simp only [hb, Bool.false_eq_true, if_false]
    exact nspInv_establish _ (map3_mem _)

theorem blankKey_of_inv {t : List Char} (hinv : nspInv t = true) :
    blankKey ⟨t⟩ = ⟨t⟩ := by
  obtain ⟨hOK, hAdj, hHead, hLast⟩ := nspInv_parts hinv
  unfold blankKey pyStrip pyLower strMap
  have e1 : pyStripL (String.data ⟨t⟩) = t := by
    show pyStripL t = t
    exact pyStripL_fix hHead hLast
  rw [e1]
  show (⟨t.map asciiLower⟩ : String) = ⟨t⟩
  rw [map_fix t (fun c hc => charOK_fix (List.all_eq_true.mp hOK c hc))]

theorem isBlankStr_eq_or (s : String) :
    isBlankStr s = ((blankKey s == "") || sentinelStr s) := by
  unfold isBlankStr sentinelStr
  rfl

theorem isBlankStr_of_inv {t : List Char} (hinv : nspInv t = true)
    (hsent : sentinelStr ⟨t⟩ = false) (hne : t ≠ []) : isBlankStr ⟨t⟩ = false := by
  rw [isBlankStr_eq_or, hsent, blankKey_of_inv hinv]
  have : ((⟨t⟩ : String) == "") = false := by
    apply beq_eq_false_iff_ne.mpr
    intro he
    exact hne (by simpa using congrArg String.data he)
  simp [this]

theorem nsp_fix {t : List Char} (hinv : nspInv t = true)
    (hblank : isBlankStr ⟨t⟩ = false) :
    norm_spaces_punct (.vstr ⟨t⟩) = ⟨t⟩ := by
  obtain ⟨hOK, hAdj, hHead, hLast⟩ := nspInv_parts hinv
  have hOKm := List.all_eq_true.mp hOK
  unfold norm_spaces_punct
  have hb : isBlank (Value.vstr ⟨t⟩) = false := hblank
  simp only [hb, Bool.false_eq_true, if_false]
  show pyLower ⟨pyStripL (collapseSp (((String.data ⟨t⟩).map _).map _|>.map _))⟩ = ⟨t⟩
  have d0 : String.data ⟨t⟩ = t := rfl
  rw [d0]
  rw [map_fix t (fun c hc => charOK_map1 (hOKm c hc))]
  rw [map_fix t (fun c hc => charOK_map2 (hOKm c hc))]
  rw [map_fix t (fun c hc => charOK_map3 (hOKm c hc))]
  rw [collapseSp_fix t (List.all_eq_true.mpr (fun c hc => charOK_space_flag (hOKm c hc))) hAdj]
  rw [pyStripL_fix hHead hLast]
  unfold pyLower strMap
  show (⟨t.map asciiLower⟩ : String) = ⟨t⟩
  rw [map_fix t (fun c hc => charOK_fix (hOKm c hc))]

/-- The single idempotence workhorse for all `norm_spaces_punct`-based
    normalizers: reapplying is the identity unless the first output is one of
    the blank sentinels. -/
theorem nsp_idem_or_sentinel (x : Value) :
    norm_spaces_punct (.vstr (norm_spaces_punct x)) = norm_spaces_punct x
    ∨ sentinelStr (norm_spaces_punct x) = true := by
  by_cases hsent : sentinelStr (norm_spaces_punct x) = true
  · exact Or.inr hsent
  · left
    by_cases hne : (norm_spaces_punct x).data = []
    · have he : norm_spaces_punct x = "" := by
        show (⟨(norm_spaces_punct x).data⟩ : String) = ""
        rw [hne]
      rw [he]
      decide
    · have hinv := nspInv_nsp x
      have hb := isBlankStr_of_inv hinv (by simpa using hsent) hne
      exact nsp_fix hinv hb

/-! ### Digit-string lemmas -/

theorem allDigits_not_space {l : List Char} (h : l.all isDigitCh = true) :
    ∀ c ∈ l, isSpaceCh c = false :=
  fun c hc => isDigitCh_not_space (List.all_eq_true.mp h c hc)

theorem allDigits_blankKey {l : List Char} (h : l.all isDigitCh = true) :
    blankKey ⟨l⟩ = ⟨l⟩ := by
  unfold blankKey pyStrip pyLower strMap
  show (⟨(pyStripL l).map asciiLower⟩ : String) = ⟨l⟩
  rw [pyStripL_eq_self (allDigits_not_space h)]
  rw [map_fix l (fun c hc =>
    asciiLower_eq_of_not_upper (isDigitCh_not_upper (List.all_eq_true.mp h c hc)))]

theorem allDigits_ne_str {l : List Char} (h : l.all isDigitCh = true) (w : String)
    (hw : w.data.all isDigitCh = false) : ((⟨l⟩ : String) == w) = false := by
  apply beq_eq_false_iff_ne.mpr
  intro he
  have hd : l = w.data := by simpa using congrArg String.data he
  rw [hd] at h
  rw [h] at hw
  exact absurd hw (by simp)

theorem allDigits_not_blank {l : List Char} (h : l.all isDigitCh = true) (hne : l ≠ []) :
    isBlankStr ⟨l⟩ = false := by
  rw [isBlankStr_eq_or, allDigits_blankKey h]
  have h1 : ((⟨l⟩ : String) == "") = false :=
    beq_eq_false_iff_ne.mpr (fun he => hne (by simpa using congrArg String.data he))
  have h2 : sentinelStr ⟨l⟩ = false := by
    unfold sentinelStr
    rw [allDigits_blankKey h]
    have n1 := allDigits_ne_str h "nan" (by decide)
    have n2 := allDigits_ne_str h "none" (by decide)
    have n3 := allDigits_ne_str h "null" (by decide)
    simp only [List.contains, List.elem_eq_mem, decide_eq_false_iff_not, List.mem_cons,
      List.not_mem_nil, or_false]
    rintro (he | he | he)
    · exact absurd (by simp [he] : ((⟨l⟩ : String) == "nan") = true) (by simp [n1])
    · exact absurd (by simp [he] : ((⟨l⟩ : String) == "none") = true) (by simp [n2])
    · exact absurd (by simp [he] : ((⟨l⟩ : String) == "null") = true) (by simp [n3])
  rw [h1, h2]
  rfl

theorem digits_only_all (x : Value) : (digits_only x).data.all isDigitCh = true := by
  unfold digits_only
  by_cases hb : isBlank x = true
  · simp [hb]
  · simp only [hb, Bool.false_eq_true, if_false]
    rw [List.all_eq_true]
    intro c hc
    exact (List.mem_filter.mp hc).2

theorem digits_only_fix {l : List Char} (h : l.all isDigitCh = true) (hne : l ≠ []) :
    digits_only (.vstr ⟨l⟩) = ⟨l⟩ := by
  have hb : isBlank (Value.vstr ⟨l⟩) = false := allDigits_not_blank h hne
  unfold digits_only
  simp only [hb, Bool.false_eq_true, if_false]
  have e1 : pyStripL (pyStr (Value.vstr ⟨l⟩)).data = l := by
    show pyStripL l = l
    exact pyStripL_eq_self (allDigits_not_space h)
  rw [e1]
  have hm : matchIntDotZeros l = false := by
    unfold matchIntDotZeros
    have hd : l.dropWhile isDigitCh = [] :=
      List.dropWhile_eq_nil_iff.mpr (fun x hx => List.all_eq_true.mp h x hx)
    rw [List.span_eq_take_drop, hd]
    simp
  rw [hm]
  simp only [Bool.false_eq_true, if_false]
  show (⟨l.filter isDigitCh⟩ : String) = ⟨l⟩
  rw [List.filter_eq_self.mpr (fun c hc => List.all_eq_true.mp h c hc)]


theorem allDigits_sub {l m : List Char} (h : l.all isDigitCh = true)
    (hsub : ∀ c ∈ m, c ∈ l) : m.all isDigitCh = true := by
  rw [List.all_eq_true]
  exact fun c hc => List.all_eq_true.mp h c (hsub c hc)

theorem norm_phone_digits_shape (x : Value) :
    norm_phone_digits x = ""
    ∨ ((norm_phone_digits x).data.all isDigitCh = true ∧ (norm_phone_digits x).data ≠ []
        ∧ (norm_phone_digits x).data.length ≤ 10) := by
  unfold norm_phone_digits
  by_cases he : (digits_only x).data.isEmpty = true
  · simp [he]
  · right
    simp only [he, Bool.false_eq_true, if_false]
    have hall : (digits_only x).data.all isDigitCh = true := digits_only_all x
    have hdne : (digits_only x).data ≠ [] := by simpa [List.isEmpty_iff] using he
    split
    · rename_i h11
      simp only [Bool.and_eq_true] at h11
      have hlen : (digits_only x).data.length = 11 := by simpa using h11.1
      have hl2 : (digits_only x).data.tail.length = 10 := by
        rw [List.length_tail, hlen]
      have h2all : (digits_only x).data.tail.all isDigitCh = true :=
        allDigits_sub hall (fun c hc => List.mem_of_mem_tail hc)
      rw [if_neg (by rw [hl2]; omega)]
      refine ⟨h2all, ?_, by omega⟩
      intro hnil
      rw [hnil] at hl2
      simp at hl2
    · split
      · rename_i hgt
        have hsub : ∀ c ∈ (digits_only x).data.drop ((digits_only x).data.length - 10),
            c ∈ (digits_only x).data := fun c hc => List.drop_subset _ _ hc
        have hdl : ((digits_only x).data.drop ((digits_only x).data.length - 10)).length
            = 10 := by
          rw [List.length_drop]
          omega
        refine ⟨allDigits_sub hall hsub, ?_, by omega⟩
        intro hnil
        rw [hnil] at hdl
        simp at hdl
      · rename_i hgt
        exact ⟨hall, hdne, by omega⟩

theorem norm_zip_first5_shape (x : Value) :
    norm_zip_first5 x = ""
    ∨ ((norm_zip_first5 x).data.all isDigitCh = true
        ∧ (norm_zip_first5 x).data.length = 5) := by
  unfold norm_zip_first5
  by_cases he : (digits_only x).data.isEmpty = true
  · simp [he]
  · right
    simp only [he, Bool.false_eq_true, if_false]
    have hall : (digits_only x).data.all isDigitCh = true := digits_only_all x
    have hdne : (digits_only x).data ≠ [] := by simpa [List.isEmpty_iff] using he
    have hpos : 0 < (digits_only x).data.length := List.length_pos.mpr hdne
    split
    · rename_i hcnd
      simp only [Bool.and_eq_true] at hcnd
      have hlt : (digits_only x).data.length < 5 := by simpa using hcnd.2
      have hpadall : (padZeros 5 (digits_only x).data).all isDigitCh = true := by
        unfold padZeros
        rw [List.all_append, Bool.and_eq_true]
        refine ⟨?_, hall⟩
        rw [List.all_eq_true]
        intro c hc
        rw [List.eq_of_mem_replicate hc]
        decide
      have hpadlen : (padZeros 5 (digits_only x).data).length = 5 := by
        unfold padZeros
        rw [List.length_append, List.length_replicate]
        omega
      constructor
      · exact allDigits_sub hpadall (fun c hc => List.take_subset _ _ hc)
      · rw [List.length_take, hpadlen]
        simp
    · rename_i hcnd
      have hc2 : (decide (0 < (digits_only x).data.length)
          && decide ((digits_only x).data.length < 5)) = false := by
        simpa using hcnd
      have hge : 5 ≤ (digits_only x).data.length := by
        rcases Bool.and_eq_false_iff.mp hc2 with h1 | h1
        · exact absurd hpos (by simpa using h1)
        · have h2 : ¬((digits_only x).data.length < 5) := by simpa using h1
          omega
      constructor
      · exact allDigits_sub hall (fun c hc => List.take_subset _ _ hc)
      · rw [List.length_take]
        omega

theorem norm_phone_digits_vstr_fix {l : List Char} (h : l.all isDigitCh = true)
    (hne : l ≠ []) (hle : l.length ≤ 10) : norm_phone_digits (.vstr ⟨l⟩) = ⟨l⟩ := by
  unfold norm_phone_digits
  rw [digits_only_fix h hne]
  dsimp only
  split
  · rename_i hie
    exact absurd (by simpa [List.isEmpty_iff] using hie) hne
  · split
    · rename_i h11
      exfalso
      simp only [Bool.and_eq_true] at h11
      have h2 : l.length = 11 := by simpa using h11.1
      omega
    · split
      · rename_i hgt
        exfalso
        have h2 : l.length > 10 := hgt
        omega
      · rfl

theorem norm_zip_first5_vstr_fix {l : List Char} (h : l.all isDigitCh = true)
    (hlen : l.length = 5) : norm_zip_first5 (.vstr ⟨l⟩) = ⟨l⟩ := by
  have hne : l ≠ [] := by
    intro hnil
    rw [hnil] at hlen
    simp at hlen
  unfold norm_zip_first5
  rw [digits_only_fix h hne]
  dsimp only
  split
  · rename_i hie
    exact absurd (by simpa [List.isEmpty_iff] using hie) hne
  · split
    · rename_i hcnd
      exfalso
      simp only [Bool.and_eq_true] at hcnd
      have h2 : l.length < 5 := by simpa using hcnd.2
      omega
    · show (⟨l.take 5⟩ : String) = ⟨l⟩
      rw [List.take_of_length_le (by omega)]

/-! ### Decimal print/parse round-trip -/

theorem natDigitsAux_val : ∀ f n, n ≤ f → ofDigitsLE (natDigitsAux f n) = n := by
  intro f
  induction f with
  | zero =>
    intro n h
    have h0 : n = 0 := by omega
    subst h0
    rfl
  | succ f ih =>
    intro n h
    cases n with
    | zero => rfl
    | succ m =>
      simp only [natDigitsAux, ofDigitsLE]
      have hdiv : (m + 1) / 10 ≤ f := by
        have := Nat.div_lt_self (Nat.succ_pos m) (by omega : 1 < 10)
        omega
      rw [ih _ hdiv]
      omega

theorem natDigitsAux_lt : ∀ f n d, d ∈ natDigitsAux f n → d < 10 := by
  intro f
  induction f with
  | zero => intro n d hd; simp [natDigitsAux] at hd
  | succ f ih =>
    intro n d hd
    cases n with
    | zero => simp [natDigitsAux] at hd
    | succ m =>
      simp only [natDigitsAux, List.mem_cons] at hd
      rcases hd with h | h
      · subst h; exact Nat.mod_lt _ (by omega)
      · exact ih _ _ h

theorem natDigitsAux_len : ∀ f n k, n < 10 ^ k → (natDigitsAux f n).length ≤ k := by
  intro f
  induction f with
  | zero => intro n k _; simp [natDigitsAux]
  | succ f ih =>
    intro n k h
    cases n with
    | zero => simp [natDigitsAux]
    | succ m =>
      cases k with
      | zero => simp at h
      | succ k =>
        simp only [natDigitsAux, List.length_cons]
        have hq : (m + 1) / 10 < 10 ^ k := by
          rw [Nat.div_lt_iff_lt_mul (by omega : 0 < 10)]
          calc m + 1 < 10 ^ (k + 1) := h
            _ = 10 ^ k * 10 := by ring
        have := ih ((m + 1) / 10) k hq
        omega

theorem digitChar_props : ∀ d, d < 10 →
    (isDigitCh (Nat.digitChar d) = true ∧ (Nat.digitChar d).toNat - 48 = d
      ∧ ((Nat.digitChar d = '0') ↔ d = 0)) := by
  decide

theorem natChars_all_digit (n : Nat) : (natChars n).all isDigitCh = true := by
  unfold natChars
  by_cases h : n = 0
  · simp [h]; decide
  · simp only [h, Bool.false_eq_true, if_false]
    rw [List.all_eq_true]
    intro c hc
    rw [List.mem_reverse] at hc
    rcases List.mem_map.mp hc with ⟨d, hd, heq⟩
    rw [← heq]
    exact (digitChar_props d (natDigitsAux_lt _ _ _ hd)).1

theorem natChars_ne_nil (n : Nat) : natChars n ≠ [] := by
  unfold natChars
  by_cases h : n = 0
  · simp [h]
  · simp only [h, Bool.false_eq_true, if_false]
    cases n with
    | zero => exact absurd rfl h
    | succ m =>
      show ((natDigitsAux (m + 1) (m + 1)).map Nat.digitChar).reverse ≠ []
      simp [natDigitsAux]

theorem foldl_digits :
    ∀ (L : List Nat), (∀ d ∈ L, d < 10) → ∀ acc : Nat,
      ((L.map Nat.digitChar).reverse).foldl (fun a c => a * 10 + (c.toNat - 48)) acc
        = acc * 10 ^ L.length + ofDigitsLE L := by
  intro L
  induction L with
  | nil => intro _ acc; simp [ofDigitsLE]
  | cons d ds ih =>
    intro hL acc
    simp only [List.map_cons, List.reverse_cons]
    rw [List.foldl_append]
    rw [ih (fun x hx => hL x (List.mem_cons_of_mem _ hx)) acc]
    show (acc * 10 ^ ds.length + ofDigitsLE ds) * 10 + ((Nat.digitChar d).toNat - 48)
      = acc * 10 ^ (d :: ds).length + ofDigitsLE (d :: ds)
    rw [(digitChar_props d (hL d (by simp))).2.1]
    simp only [List.length_cons, ofDigitsLE]
    ring

theorem parseNatL_natChars (n : Nat) : parseNatL (natChars n) = n := by
  by_cases h : n = 0
  · subst h; decide
  · unfold natChars
    simp only [h, Bool.false_eq_true, if_false]
    unfold parseNatL
    rw [foldl_digits (natDigitsLE n) (fun d hd => natDigitsAux_lt _ _ _ hd) 0]
    simp [natDigitsAux_val n n (le_refl n), natDigitsLE]

theorem parseNatL_replicate_zero :
    ∀ k (l : List Char), parseNatL (List.replicate k '0' ++ l) = parseNatL l := by
  intro k
  induction k with
  | zero => intro l; rfl
  | succ k ih =>
    intro l
    show parseNatL ('0' :: (List.replicate k '0' ++ l)) = parseNatL l
    unfold parseNatL
    rw [List.foldl_cons]
    rw [show (0 * 10 + ('0'.toNat - 48)) = 0 from by decide]
    exact ih l

theorem parseNatL_all_zero :
    ∀ l : List Char, l.all (fun c => c = '0') = true → parseNatL l = 0 := by
  intro l
  induction l with
  | nil => intro _; rfl
  | cons c t ih =>
    intro h
    have hc : c = '0' := by
      have := List.all_eq_true.mp h c (by simp)
      simpa using this
    subst hc
    have ht : t.all (fun c => c = '0') = true := by
      rw [List.all_eq_true]
      exact fun x hx => List.all_eq_true.mp h x (List.mem_cons_of_mem _ hx)
    unfold parseNatL
    rw [List.foldl_cons]
    rw [show (0 * 10 + ('0'.toNat - 48)) = 0 from by decide]
    exact ih ht

theorem takeWhile_all_append (p : Char → Bool) :
    ∀ A B : List Char, A.all p = true → headNotP p B = true →
      (A ++ B).takeWhile p = A := by
  intro A
  induction A with
  | nil =>
    intro B _ hB
    cases B with
    | nil => rfl
    | cons b bs =>
      have hb : p b = false := by simpa [headNotP] using hB
      simp [List.takeWhile_cons, hb]
  | cons a A2 ih =>
    intro B hA hB
    have ha : p a = true := List.all_eq_true.mp hA a (by simp)
    have hA2 : A2.all p = true := by
      rw [List.all_eq_true]
      exact fun x hx => List.all_eq_true.mp hA x (List.mem_cons_of_mem _ hx)
    simp [List.takeWhile_cons, ha, ih B hA2 hB]

theorem dropWhile_all_append (p : Char → Bool) :
    ∀ A B : List Char, A.all p = true → headNotP p B = true →
      (A ++ B).dropWhile p = B := by
  intro A
  induction A with
  | nil =>
    intro B _ hB
    exact dropWhile_eq_self_of_head p B hB
  | cons a A2 ih =>
    intro B hA hB
    have ha : p a = true := List.all_eq_true.mp hA a (by simp)
    have hA2 : A2.all p = true := by
      rw [List.all_eq_true]
      exact fun x hx => List.all_eq_true.mp hA x (List.mem_cons_of_mem _ hx)
    simp [List.dropWhile_cons, ha, ih B hA2 hB]

theorem span_all_append (p : Char → Bool) (A B : List Char) (hA : A.all p = true)
    (hB : headNotP p B = true) : (A ++ B).span p = (A, B) := by
  rw [List.span_eq_take_drop, takeWhile_all_append p A B hA hB,
    dropWhile_all_append p A B hA hB]

theorem pyDecStrL_classes (d : PyDec) :
    ∀ c ∈ pyDecStrL d, isDigitCh c = true ∨ c = '-' ∨ c = '.' := by
  intro c hc
  unfold pyDecStrL at hc
  rcases List.mem_append.mp hc with h | h
  · by_cases hm : d.m < 0
    · rw [if_pos hm] at h
      right; left
      simpa using h
    · rw [if_neg hm] at h
      simp at h
  · by_cases he : d.e = 0
    · rw [if_pos he] at h
      left
      exact List.all_eq_true.mp (natChars_all_digit _) c h
    · rw [if_neg he] at h
      rcases List.mem_append.mp h with h1 | h1
      · left
        exact List.all_eq_true.mp (natChars_all_digit _) c h1
      · rcases List.mem_cons.mp h1 with h2 | h2
        · right; right; exact h2
        · unfold padZeros at h2
          rcases List.mem_append.mp h2 with h3 | h3
          · left
            rw [List.eq_of_mem_replicate h3]
            decide
          · left
            exact List.all_eq_true.mp (natChars_all_digit _) c h3

theorem pyDecStrL_no_space (d : PyDec) : ∀ c ∈ pyDecStrL d, isSpaceCh c = false := by
  intro c hc
  rcases pyDecStrL_classes d c hc with h | h | h
  · exact isDigitCh_not_space h
  · subst h; decide
  · subst h; decide

theorem pyDecStrL_no_comma (d : PyDec) :
    ∀ c ∈ pyDecStrL d, (!decide (c = ',')) = true := by
  intro c hc
  rcases pyDecStrL_classes d c hc with h | h | h
  · have : ¬c = ',' := fun he => by rw [he] at h; exact absurd h (by decide)
    simp [this]
  · subst h; decide
  · subst h; decide

theorem pyDecStrL_no_dollar (d : PyDec) :
    ∀ c ∈ pyDecStrL d, (!decide (c = '$')) = true := by
  intro c hc
  rcases pyDecStrL_classes d c hc with h | h | h
  · have : ¬c = '$' := fun he => by rw [he] at h; exact absurd h (by decide)
    simp [this]
  · subst h; decide
  · subst h; decide

theorem parseDecL_digits {l : List Char} (h : l.all isDigitCh = true) (hne : l ≠ []) :
    parseDecL l = some ⟨(parseNatL l : Int), 0⟩ := by
  obtain ⟨c, cs, hl⟩ : ∃ c cs, l = c :: cs := by
    cases l with
    | nil => exact absurd rfl hne
    | cons c cs => exact ⟨c, cs, rfl⟩
  subst hl
  have hcd : isDigitCh c = true := List.all_eq_true.mp h c (by simp)
  have hcm : (c == '-') = false := by
    have h2 : ¬c = '-' := fun he => by rw [he] at hcd; exact absurd hcd (by decide)
    simp [h2]
  have hcp : (c == '+') = false := by
    have h2 : ¬c = '+' := fun he => by rw [he] at hcd; exact absurd hcd (by decide)
    simp [h2]
  have hspan : (c :: cs).span isDigitCh = (c :: cs, []) := by
    have h2 := span_all_append isDigitCh (c :: cs) [] h (by rfl)
    simpa using h2
  unfold parseDecL
  rw [pyStripL_eq_self (fun x hx => isDigitCh_not_space (List.all_eq_true.mp h x hx))]
  dsimp only
  rw [show (((c :: cs).head? == some '-') : Bool) = (c == '-') from rfl, hcm]
  rw [show (((c :: cs).head? == some '+') : Bool) = (c == '+') from rfl, hcp]
  simp only [Bool.false_eq_true, if_false, Bool.or_self, hspan]
  simp [one_mul]

theorem parseDecL_neg_digits {l : List Char} (h : l.all isDigitCh = true) (hne : l ≠ []) :
    parseDecL ('-' :: l) = some ⟨-(parseNatL l : Int), 0⟩ := by
  have hns : ∀ x ∈ ('-' :: l), isSpaceCh x = false := by
    intro x hx
    rcases List.mem_cons.mp hx with h2 | h2
    · subst h2; decide
    · exact isDigitCh_not_space (List.all_eq_true.mp h x h2)
  have hspan : l.span isDigitCh = (l, []) := by
    have h2 := span_all_append isDigitCh l [] h (by rfl)
    simpa using h2
  have hie : l.isEmpty = false := by simpa [List.isEmpty_iff] using hne
  unfold parseDecL
  rw [pyStripL_eq_self hns]
  dsimp only
  rw [show ((('-' :: l).head? == some '-') : Bool) = true from rfl]
  simp only [if_true, Bool.true_or, List.tail_cons, hspan, List.isEmpty_nil, hie,
    Bool.false_eq_true, if_false]
  simp

theorem parseDecL_digits_dot {A F : List Char} (hA : A.all isDigitCh = true) (hAne : A ≠ [])
    (hF : F.all isDigitCh = true) :
    parseDecL (A ++ '.' :: F) =
      some ⟨(parseNatL A : Int) * 10 ^ F.length + (parseNatL F : Int), F.length⟩ := by
  obtain ⟨c, cs, hA2⟩ : ∃ c cs, A = c :: cs := by
    cases A with
    | nil => exact absurd rfl hAne
    | cons c cs => exact ⟨c, cs, rfl⟩
  subst hA2
  have hcd : isDigitCh c = true := List.all_eq_true.mp hA c (by simp)
  have hcm : (c == '-') = false := by
    have h2 : ¬c = '-' := fun he => by rw [he] at hcd; exact absurd hcd (by decide)
    simp [h2]
  have hcp : (c == '+') = false := by
    have h2 : ¬c = '+' := fun he => by rw [he] at hcd; exact absurd hcd (by decide)
    simp [h2]
  have hns : ∀ x ∈ (c :: cs) ++ '.' :: F, isSpaceCh x = false := by
    intro x hx
    rcases List.mem_append.mp hx with h2 | h2
    · exact isDigitCh_not_space (List.all_eq_true.mp hA x h2)
    · rcases List.mem_cons.mp h2 with h3 | h3
      · subst h3; decide
      · exact isDigitCh_not_space (List.all_eq_true.mp hF x h3)
  have hspan : ((c :: cs) ++ '.' :: F).span isDigitCh = (c :: cs, '.' :: F) :=
    span_all_append isDigitCh (c :: cs) ('.' :: F) hA (by rfl)
  have hspanF : F.span isDigitCh = (F, []) := by
    have h2 := span_all_append isDigitCh F [] hF (by rfl)
    simpa using h2
  unfold parseDecL
  rw [pyStripL_eq_self hns]
  dsimp only
  rw [show ((((c :: cs) ++ '.' :: F).head? == some '-') : Bool) = (c == '-') from rfl, hcm]
  rw [show ((((c :: cs) ++ '.' :: F).head? == some '+') : Bool) = (c == '+') from rfl, hcp]
  simp only [Bool.false_eq_true, if_false, Bool.or_self, hspan]
  simp only [List.isEmpty_cons, Bool.false_eq_true, if_false]
  rw [show ((('.' :: F).head? == some '.') : Bool) = true from rfl]
  simp only [if_true, List.tail_cons, hspanF]
  simp

theorem parseDecL_neg_digits_dot {A F : List Char} (hA : A.all isDigitCh = true)
    (hAne : A ≠ []) (hF : F.all isDigitCh = true) :
    parseDecL ('-' :: (A ++ '.' :: F)) =
      some ⟨-((parseNatL A : Int) * 10 ^ F.length + (parseNatL F : Int)), F.length⟩ := by
  obtain ⟨c, cs, hA2⟩ : ∃ c cs, A = c :: cs := by
    cases A with
    | nil => exact absurd rfl hAne
    | cons c cs => exact ⟨c, cs, rfl⟩
  subst hA2
  have hns : ∀ x ∈ '-' :: ((c :: cs) ++ '.' :: F), isSpaceCh x = false := by
    intro x hx
    rcases List.mem_cons.mp hx with h2 | h2
    · subst h2; decide
    · rcases List.mem_append.mp h2 with h3 | h3
      · exact isDigitCh_not_space (List.all_eq_true.mp hA x h3)
      · rcases List.mem_cons.mp h3 with h4 | h4
        · subst h4; decide
        · exact isDigitCh_not_space (List.all_eq_true.mp hF x h4)
  have hspan : ((c :: cs) ++ '.' :: F).span isDigitCh = (c :: cs, '.' :: F) :=
    span_all_append isDigitCh (c :: cs) ('.' :: F) hA (by rfl)
  have hspanF : F.span isDigitCh = (F, []) := by
    have h2 := span_all_append isDigitCh F [] hF (by rfl)
    simpa using h2
  unfold parseDecL
  rw [pyStripL_eq_self hns]
  dsimp only
  rw [show ((('-' :: ((c :: cs) ++ '.' :: F)).head? == some '-') : Bool) = true from rfl]
  simp only [if_true, Bool.true_or, List.tail_cons, hspan]
  simp only [List.isEmpty_cons, Bool.false_eq_true, if_false]
  rw [show ((('.' :: F).head? == some '.') : Bool) = true from rfl]
  simp only [if_true, List.tail_cons, hspanF]
  simp

theorem matchIDZ_all_digits {l : List Char} (h : l.all isDigitCh = true) :
    matchIntDotZeros l = false := by
  unfold matchIntDotZeros
  rw [List.span_eq_take_drop]
  have hd : l.dropWhile isDigitCh = [] :=
    List.dropWhile_eq_nil_iff.mpr (fun x hx => List.all_eq_true.mp h x hx)
  rw [hd]
  simp

theorem matchIDZ_neg (l : List Char) : matchIntDotZeros ('-' :: l) = false := by
  unfold matchIntDotZeros
  rw [List.span_eq_take_drop]
  rw [List.takeWhile_cons_of_neg (by decide : ¬isDigitCh '-' = true)]
  simp

theorem matchIDZ_dot (A F : List Char) (hA : A.all isDigitCh = true) (hAne : A ≠ [])
    (hFne : F ≠ []) :
    matchIntDotZeros (A ++ '.' :: F) = F.all (fun c => c = '0') := by
  unfold matchIntDotZeros
  rw [span_all_append isDigitCh A ('.' :: F) hA (by rfl)]
  have hAie : A.isEmpty = false := by simpa [List.isEmpty_iff] using hAne
  have hFie : F.isEmpty = false := by simpa [List.isEmpty_iff] using hFne
  simp [hAie, hFie]

theorem padZeros_natChars_all (e z : Nat) :
    (padZeros e (natChars z)).all isDigitCh = true := by
  unfold padZeros
  rw [List.all_append, Bool.and_eq_true]
  refine ⟨?_, natChars_all_digit z⟩
  rw [List.all_eq_true]
  intro c hc
  rw [List.eq_of_mem_replicate hc]
  decide

theorem natChars_length_le {z k : Nat} (hz : z < 10 ^ k) (hk : k ≠ 0) :
    (natChars z).length ≤ k := by
  unfold natChars
  by_cases h0 : z = 0
  · simp only [h0, if_true]
    show 1 ≤ k
    omega
  · simp only [h0, Bool.false_eq_true, if_false]
    rw [List.length_reverse, List.length_map]
    exact natDigitsAux_len z z k hz

theorem padZeros_natChars_len {e z : Nat} (hz : z < 10 ^ e) (he : e ≠ 0) :
    (padZeros e (natChars z)).length = e := by
  unfold padZeros
  rw [List.length_append, List.length_replicate]
  have := natChars_length_le hz he
  omega

theorem parseNatL_padZeros_natChars (e z : Nat) :
    parseNatL (padZeros e (natChars z)) = z := by
  unfold padZeros
  rw [parseNatL_replicate_zero, parseNatL_natChars]

theorem padZeros_zero_all (e : Nat) :
    (padZeros e (natChars 0)).all (fun c => c = '0') = true := by
  unfold padZeros natChars
  rw [if_pos rfl, List.all_append, Bool.and_eq_true]
  constructor
  · rw [List.all_eq_true]
    intro c hc
    rw [List.eq_of_mem_replicate hc]
    simp
  · decide

theorem beforeDot_digits_append (A F : List Char) (hA : A.all isDigitCh = true) :
    beforeDot (A ++ '.' :: F) = A := by
  unfold beforeDot
  apply takeWhile_all_append
  · rw [List.all_eq_true]
    intro c hc
    have hcd := List.all_eq_true.mp hA c hc
    have h2 : ¬c = '.' := fun he => by rw [he] at hcd; exact absurd hcd (by decide)
    simpa using h2
  · rfl

theorem safe_decimal_vdec (d : PyDec) :
    ∃ d2, safe_decimal (.vdec d) = some d2 ∧ pyDecEq d2 d = true := by
  obtain ⟨m, e⟩ := d
  have hb : isBlank (Value.vdec ⟨m, e⟩) = false := rfl
  unfold safe_decimal
  simp only [hb, Bool.false_eq_true, if_false]
  rw [show (pyStr (Value.vdec ⟨m, e⟩)).data = pyDecStrL ⟨m, e⟩ from rfl]
  rw [pyStripL_eq_self (pyDecStrL_no_space ⟨m, e⟩)]
  rw [List.filter_eq_self.mpr (pyDecStrL_no_comma ⟨m, e⟩)]
  rw [List.filter_eq_self.mpr (pyDecStrL_no_dollar ⟨m, e⟩)]
  by_cases he : e = 0
  · subst he
    by_cases hm : m < 0
    · have hstr : pyDecStrL ⟨m, 0⟩ = '-' :: natChars m.natAbs := by
        unfold pyDecStrL
        rw [if_pos hm, if_pos rfl]
        rfl
      rw [hstr, matchIDZ_neg]
      simp only [Bool.false_eq_true, if_false]
      rw [parseDecL_neg_digits (natChars_all_digit _) (natChars_ne_nil _)]
      refine ⟨_, rfl, ?_⟩
      unfold pyDecEq
      simp only [pow_zero, mul_one]
      rw [parseNatL_natChars]
      have h2 : ((m.natAbs : Int)) = -m := Int.ofNat_natAbs_of_nonpos (by omega)
      simp [h2]
    · have hstr : pyDecStrL ⟨m, 0⟩ = natChars m.natAbs := by
        unfold pyDecStrL
        rw [if_neg hm, if_pos rfl]
        rfl
      rw [hstr, matchIDZ_all_digits (natChars_all_digit _)]
      simp only [Bool.false_eq_true, if_false]
      rw [parseDecL_digits (natChars_all_digit _) (natChars_ne_nil _)]
      refine ⟨_, rfl, ?_⟩
      unfold pyDecEq
      simp only [pow_zero, mul_one]
      rw [parseNatL_natChars]
      have h2 : ((m.natAbs : Int)) = m := Int.natAbs_of_nonneg (by omega)
      simp [h2]
  · have hP : 0 < 10 ^ e := Nat.pos_pow_of_pos e (by omega)
    have hzlt : m.natAbs % 10 ^ e < 10 ^ e := Nat.mod_lt _ hP
    have hFlen : (padZeros e (natChars (m.natAbs % 10 ^ e))).length = e :=
      padZeros_natChars_len hzlt he
    have hFall := padZeros_natChars_all e (m.natAbs % 10 ^ e)
    have hFne : padZeros e (natChars (m.natAbs % 10 ^ e)) ≠ [] := by
      intro h0
      rw [h0] at hFlen
      simp at hFlen
      exact he hFlen.symm
    have hsumN : m.natAbs / 10 ^ e * 10 ^ e + m.natAbs % 10 ^ e = m.natAbs := by
      have h2 := Nat.div_add_mod m.natAbs (10 ^ e)
      rw [Nat.mul_comm] at h2
      exact h2
    by_cases hm : m < 0
    · have hstr : pyDecStrL ⟨m, e⟩ = '-' :: (natChars (m.natAbs / 10 ^ e)
          ++ '.' :: padZeros e (natChars (m.natAbs % 10 ^ e))) := by
        unfold pyDecStrL
        rw [if_pos hm, if_neg he]
        rfl
      rw [hstr, matchIDZ_neg]
      simp only [Bool.false_eq_true, if_false]
      rw [parseDecL_neg_digits_dot (natChars_all_digit _) (natChars_ne_nil _) hFall]
      refine ⟨_, rfl, ?_⟩
      unfold pyDecEq
      rw [parseNatL_natChars, parseNatL_padZeros_natChars, hFlen]
      have habs : ((m.natAbs : Int)) = -m := Int.ofNat_natAbs_of_nonpos (by omega)
      have hsum : ((m.natAbs / 10 ^ e : Nat) : Int) * 10 ^ e
          + ((m.natAbs % 10 ^ e : Nat) : Int) = ((m.natAbs : Int)) := by
        exact_mod_cast hsumN
      simp only [beq_iff_eq]
      rw [hsum, habs]
      ring
    · have hstr : pyDecStrL ⟨m, e⟩ = natChars (m.natAbs / 10 ^ e)
          ++ '.' :: padZeros e (natChars (m.natAbs % 10 ^ e)) := by
        unfold pyDecStrL
        rw [if_neg hm, if_neg he]
        rfl
      rw [hstr]
      rw [matchIDZ_dot _ _ (natChars_all_digit _) (natChars_ne_nil _) hFne]
      have habs : ((m.natAbs : Int)) = m := Int.natAbs_of_nonneg (by omega)
      by_cases hz : m.natAbs % 10 ^ e = 0
      · have hFz : (padZeros e (natChars (m.natAbs % 10 ^ e))).all
            (fun c => c = '0') = true := by
          rw [hz]
          exact padZeros_zero_all e
        rw [hFz]
        simp only [if_true]
        rw [beforeDot_digits_append _ _ (natChars_all_digit _)]
        rw [parseDecL_digits (natChars_all_digit _) (natChars_ne_nil _)]
        refine ⟨_, rfl, ?_⟩
        unfold pyDecEq
        rw [parseNatL_natChars]
        simp only [pow_zero, mul_one, beq_iff_eq]
        have hdvd : m.natAbs / 10 ^ e * 10 ^ e = m.natAbs := by omega
        rw [show ((m.natAbs / 10 ^ e : Nat) : Int) * 10 ^ e = ((m.natAbs : Int)) by
          exact_mod_cast hdvd]
        exact habs
      · have hFz : (padZeros e (natChars (m.natAbs % 10 ^ e))).all
            (fun c => c = '0') = false := by
          cases hall : (padZeros e (natChars (m.natAbs % 10 ^ e))).all (fun c => c = '0') with
          | false => rfl
          | true =>
            exfalso
            have h0 := parseNatL_all_zero _ hall
            rw [parseNatL_padZeros_natChars] at h0
            exact hz h0
        rw [hFz]
        simp only [Bool.false_eq_true, if_false]
        rw [parseDecL_digits_dot (natChars_all_digit _) (natChars_ne_nil _) hFall]
        refine ⟨_, rfl, ?_⟩
        unfold pyDecEq
        rw [parseNatL_natChars, parseNatL_padZeros_natChars, hFlen]
        simp only [beq_iff_eq]
        have hsum : ((m.natAbs / 10 ^ e : Nat) : Int) * 10 ^ e
            + ((m.natAbs % 10 ^ e : Nat) : Int) = ((m.natAbs : Int)) := by
          exact_mod_cast hsumN
        rw [hsum, habs]

/-! ### Idempotence assembly lemmas -/

theorem normv_empty (dm : DateModel) (f : String) :
    norm_value_for_field dm (.vstr "") f = .vstr "" := by
  unfold norm_value_for_field
  rw [if_pos (by decide)]

theorem valueEq_vstr_self (s : String) : valueEq (.vstr s) (.vstr s) = true := by
  simp [valueEq]

theorem isBlankStr_congr {a b : String} (h : blankKey a = blankKey b) :
    isBlankStr a = isBlankStr b := by
  unfold isBlankStr
  rw [h]

theorem sentinelStr_congr {a b : String} (h : blankKey a = blankKey b) :
    sentinelStr a = sentinelStr b := by
  unfold sentinelStr
  rw [h]

theorem blankKey_pyStrip (s : String) : blankKey (pyStrip s) = blankKey s := by
  unfold blankKey pyStrip
  rw [show String.data (⟨pyStripL s.data⟩ : String) = pyStripL s.data from rfl, pyStripL_idem]

theorem blankKey_of_stripped {o : String} (h : pyStrip o = o) : blankKey o = pyLower o := by
  unfold blankKey
  rw [h]

theorem pyLower_empty {o : String} (h : pyLower o = "") : o = "" := by
  have h2 := congrArg String.data h
  have h3 : o.data.map asciiLower = [] := h2
  have h4 : o.data = [] := List.map_eq_nil.mp h3
  show o = ""
  cases o with
  | mk d => simp at h4; simp [h4]

theorem single_char_not_blank {c : Char} (hc : isSpaceCh c = false)
    (hl : isUpperCh c = true ∨ isLowerCh c = true ∨ isDigitCh c = true) :
    isBlankStr ⟨[c]⟩ = false := by
  have hst : pyStripL [c] = [c] := pyStripL_eq_self (by
    intro x hx
    rcases List.mem_singleton.mp hx with h
    rw [h]
    exact hc)
  have hkey : blankKey ⟨[c]⟩ = ⟨[asciiLower c]⟩ := by
    unfold blankKey pyStrip pyLower strMap
    rw [show String.data (⟨[c]⟩ : String) = [c] from rfl, hst]
    rfl
  rw [isBlankStr_eq_or, hkey]
  have hlen : ∀ w : String, w.data.length ≠ 1 → ((⟨[asciiLower c]⟩ : String) == w) = false := by
    intro w hw
    apply beq_eq_false_iff_ne.mpr
    intro he
    have := congrArg (fun s => s.data.length) he
    simp at this
    exact hw this.symm
  have h1 := hlen "" (by decide)
  rw [h1]
  unfold sentinelStr
  rw [hkey]
  have h2 := hlen "nan" (by decide)
  have h3 := hlen "none" (by decide)
  have h4 := hlen "null" (by decide)
  simp only [List.contains, List.elem_eq_mem, decide_eq_false_iff_not, List.mem_cons,
    List.not_mem_nil, or_false, Bool.false_or]
  rintro (he | he | he)
  · exact absurd (by simp [he] : ((⟨[asciiLower c]⟩ : String) == "nan") = true) (by simp [h2])
  · exact absurd (by simp [he] : ((⟨[asciiLower c]⟩ : String) == "none") = true) (by simp [h3])
  · exact absurd (by simp [he] : ((⟨[asciiLower c]⟩ : String) == "null") = true) (by simp [h4])

theorem norm_phone_digits_str_fix (o : String) (h : o.data.all isDigitCh = true)
    (hne : o.data ≠ []) (hle : o.data.length ≤ 10) :
    norm_phone_digits (.vstr o) = o :=
  norm_phone_digits_vstr_fix h hne hle

theorem norm_zip_first5_str_fix (o : String) (h : o.data.all isDigitCh = true)
    (hlen : o.data.length = 5) : norm_zip_first5 (.vstr o) = o :=
  norm_zip_first5_vstr_fix h hlen

theorem allDigits_str_not_blank (o : String) (h : o.data.all isDigitCh = true)
    (hne : o.data ≠ []) : isBlankStr o = false :=
  allDigits_not_blank h hne

theorem nsp_str_fix (o : String) (hinv : nspInv o.data = true)
    (hblank : isBlankStr o = false) : norm_spaces_punct (.vstr o) = o :=
  nsp_fix hinv hblank

theorem isBlankStr_str_of_inv (o : String) (hinv : nspInv o.data = true)
    (hsent : sentinelStr o = false) (hne : o.data ≠ []) : isBlankStr o = false :=
  isBlankStr_of_inv hinv hsent hne

theorem data_eq_nil {o : String} (h : o.data = []) : o = "" := by
  cases o with
  | mk d => simp at h; simp [h]

/-- How a `norm_spaces_punct` output behaves when fed back in: it is a blank
    sentinel, or empty, or a non-blank fixed point of the normalizer. -/
theorem nsp_out_trichotomy (o : String) (hinv : nspInv o.data = true) :
    sentinelStr o = true ∨ o = ""
    ∨ (isBlank (.vstr o) = false ∧ norm_spaces_punct (.vstr o) = o) := by
  by_cases hsent : sentinelStr o = true
  · exact Or.inl hsent
  by_cases hoe : o = ""
  · exact Or.inr (Or.inl hoe)
  refine Or.inr (Or.inr ?_)
  have hne : o.data ≠ [] := fun h => hoe (data_eq_nil h)
  have hb := isBlankStr_str_of_inv o hinv (by simpa using hsent) hne
  exact ⟨hb, nsp_str_fix o hinv hb⟩

/-! ### Per-class evaluation equations for `norm_value_for_field` -/

theorem pyStr_vstr (s : String) : pyStr (.vstr s) = s := rfl

theorem norm_suffix_eq (x : Value) : norm_suffix x = norm_spaces_punct x := rfl

theorem normv_nonblank (dm : DateModel) (x : Value) (f : String) (hb : isBlank x = false) :
    norm_value_for_field dm x f =
      match classify_field f with
      | .phoneF => .vstr (norm_phone_digits x)
      | .zipF => .vstr (norm_zip_first5 x)
      | .dateF => .vstr (try_parse_date dm x)
      | .midInitF => .vstr (norm_middle_initial x)
      | .suffixF => .vstr (norm_suffix x)
      | .empTypeF => .vstr (norm_spaces_punct x)
      | .payTypeF => .vstr (norm_pay_type x)
      | .empStatusF => .vstr (norm_employment_status x)
      | .numericF =>
        match safe_decimal x with
        | some d => .vdec d
        | none => .vstr (norm_spaces_punct x)
      | .defaultF => .vstr (norm_spaces_punct x) := by
  unfold norm_value_for_field
  rw [if_neg (by simp [hb])]

theorem normv_phone {dm : DateModel} {x : Value} {f : String}
    (hb : isBlank x = false) (hc : classify_field f = FieldClass.phoneF) :
    norm_value_for_field dm x f = .vstr (norm_phone_digits x) := by
  simp only [normv_nonblank dm x f hb, hc]

theorem normv_zip {dm : DateModel} {x : Value} {f : String}
    (hb : isBlank x = false) (hc : classify_field f = FieldClass.zipF) :
    norm_value_for_field dm x f = .vstr (norm_zip_first5 x) := by
  simp only [normv_nonblank dm x f hb, hc]

theorem normv_date {dm : DateModel} {x : Value} {f : String}
    (hb : isBlank x = false) (hc : classify_field f = FieldClass.dateF) :
    norm_value_for_field dm x f = .vstr (try_parse_date dm x) := by
  simp only [normv_nonblank dm x f hb, hc]

theorem normv_mid {dm : DateModel} {x : Value} {f : String}
    (hb : isBlank x = false) (hc : classify_field f = FieldClass.midInitF) :
    norm_value_for_field dm x f = .vstr (norm_middle_initial x) := by
  simp only [normv_nonblank dm x f hb, hc]

theorem normv_suffix {dm : DateModel} {x : Value} {f : String}
    (hb : isBlank x = false) (hc : classify_field f = FieldClass.suffixF) :
    norm_value_for_field dm x f = .vstr (norm_spaces_punct x) := by
  simp only [normv_nonblank dm x f hb, hc, norm_suffix_eq]

theorem normv_empType {dm : DateModel} {x : Value} {f : String}
    (hb : isBlank x = false) (hc : classify_field f = FieldClass.empTypeF) :
    norm_value_for_field dm x f = .vstr (norm_spaces_punct x) := by
  simp only [normv_nonblank dm x f hb, hc]

theorem normv_payType {dm : DateModel} {x : Value} {f : String}
    (hb : isBlank x = false) (hc : classify_field f = FieldClass.payTypeF) :
    norm_value_for_field dm x f = .vstr (norm_pay_type x) := by
  simp only [normv_nonblank dm x f hb, hc]

theorem normv_empStatus {dm : DateModel} {x : Value} {f : String}
    (hb : isBlank x = false) (hc : classify_field f = FieldClass.empStatusF) :
    norm_value_for_field dm x f = .vstr (norm_employment_status x) := by
  simp only [normv_nonblank dm x f hb, hc]

theorem normv_numeric_some {dm : DateModel} {x : Value} {f : String} {d : PyDec}
    (hb : isBlank x = false) (hc : classify_field f = FieldClass.numericF)
    (hd : safe_decimal x = some d) :
    norm_value_for_field dm x f = .vdec d := by
  simp only [normv_nonblank dm x f hb, hc, hd]

theorem normv_numeric_none {dm : DateModel} {x : Value} {f : String}
    (hb : isBlank x = false) (hc : classify_field f = FieldClass.numericF)
    (hd : safe_decimal x = none) :
    norm_value_for_field dm x f = .vstr (norm_spaces_punct x) := by
  simp only [normv_nonblank dm x f hb, hc, hd]

theorem normv_default {dm : DateModel} {x : Value} {f : String}
    (hb : isBlank x = false) (hc : classify_field f = FieldClass.defaultF) :
    norm_value_for_field dm x f = .vstr (norm_spaces_punct x) := by
  simp only [normv_nonblank dm x f hb, hc]

theorem tpd_vstr (dm : DateModel) (s : String) :
    try_parse_date dm (.vstr s) =
      (if isBlankStr s then ""
       else match dm.dparse (pyStrip s) with
       | some d => dm.diso d
       | none => pyStrip s) := rfl

theorem nmi_vstr (s : String) :
    norm_middle_initial (.vstr s) =
      (if isBlankStr s then ""
       else match (pyStripL s.data).find? isAlphaCh with
       | some c => ⟨pyStripL [asciiUpper c]⟩
       | none => ⟨pyStripL []⟩) := rfl

theorem npt_eq (x : Value) :
    norm_pay_type x =
      (if norm_spaces_punct x = "" then ""
       else if containsS (norm_spaces_punct x) "salar" then "salary"
       else if containsS (norm_spaces_punct x) "hour" then "hourly"
       else norm_spaces_punct x) := rfl

theorem nes_eq (x : Value) :
    norm_employment_status x =
      (if norm_spaces_punct x = "" then ""
       else if norm_spaces_punct x = "on leave" || norm_spaces_punct x = "leave" then "active"
       else norm_spaces_punct x) := rfl

set_option maxHeartbeats 1600000 in
/-- C6: amended idempotence.  For any date backend with the round-trip
    property and any raw cell (string or blank), re-normalizing the normalized
    value either gives an equal value, or the first pass produced one of the
    blank sentinel strings `"nan"`/`"none"`/`"null"` (which the second pass
    collapses to `""`), or the field is numeric and the first pass fell back
    to a punctuation-cleaned string that the second pass parses as a decimal.
    The spec's unconditional idempotence claim fails exactly in the last two
    cases (see the counterexample). -/
theorem c6_idempotence_amended (dm : DateModel) (hdm : GoodDate dm) (v : Value)
    (hv : IsRawCell v) (f : String) :
    valueEq (norm_value_for_field dm (norm_value_for_field dm v f) f)
        (norm_value_for_field dm v f) = true
    ∨ (∃ s, norm_value_for_field dm v f = .vstr s ∧ sentinelStr s = true)
    ∨ (classify_field f = FieldClass.numericF
        ∧ ∃ s, norm_value_for_field dm v f = .vstr s
        ∧ (safe_decimal (.vstr s)).isSome = true) := by
  by_cases hb : isBlank v = true
  · left
    have e0 : norm_value_for_field dm v f = .vstr "" := by
      unfold norm_value_for_field
      rw [if_pos hb]
    rw [e0, normv_empty]
    exact valueEq_vstr_self ""
  · cases v with
    | vblank => exact absurd rfl hb
    | vdec d => simp [IsRawCell] at hv
    | vstr s₀ =>
      have hbs : isBlank (Value.vstr s₀) = false := by simpa using hb
      have hbs' : isBlankStr s₀ = false := hbs
      cases hcf : classify_field f with
      | phoneF =>
        left
        rw [normv_phone hbs hcf]
        rcases norm_phone_digits_shape (Value.vstr s₀) with h0 | ⟨hall, hne, hle⟩
        · rw [h0, normv_empty]
          exact valueEq_vstr_self ""
        · have hbo : isBlank (Value.vstr (norm_phone_digits (Value.vstr s₀))) = false :=
            allDigits_str_not_blank _ hall hne
          rw [normv_phone hbo hcf, norm_phone_digits_str_fix _ hall hne hle]
          exact valueEq_vstr_self _
      | zipF =>
        left
        rw [normv_zip hbs hcf]
        rcases norm_zip_first5_shape (Value.vstr s₀) with h0 | ⟨hall, hlen⟩
        · rw [h0, normv_empty]
          exact valueEq_vstr_self ""
        · have hne : (norm_zip_first5 (Value.vstr s₀)).data ≠ [] := by
            intro h
            rw [h] at hlen
            simp at hlen
          have hbo : isBlank (Value.vstr (norm_zip_first5 (Value.vstr s₀))) = false :=
            allDigits_str_not_blank _ hall hne
          rw [normv_zip hbo hcf, norm_zip_first5_str_fix _ hall hlen]
          exact valueEq_vstr_self _
      | dateF =>
        rw [normv_date hbs hcf]
        cases hp : dm.dparse (pyStrip s₀) with
        | some dd =>
          have eo : try_parse_date dm (Value.vstr s₀) = dm.diso dd := by
            rw [tpd_vstr, if_neg (by simp [hbs']), hp]
          rw [eo]
          by_cases hsent : sentinelStr (dm.diso dd) = true
          · exact Or.inr (Or.inl ⟨dm.diso dd, rfl, hsent⟩)
          · left
            by_cases hoe : dm.diso dd = ""
            · rw [hoe, normv_empty]
              exact valueEq_vstr_self ""
            · have hstr := hdm.2 dd
              have hs2 : sentinelStr (dm.diso dd) = false := by simpa using hsent
              have hlow : (pyLower (dm.diso dd) == "") = false := by
                apply beq_eq_false_iff_ne.mpr
                intro he
                exact hoe (pyLower_empty he)
              have hbo2 : isBlankStr (dm.diso dd) = false := by
                rw [isBlankStr_eq_or, blankKey_of_stripped hstr, hlow, hs2]
                rfl
              have hbo : isBlank (Value.vstr (dm.diso dd)) = false := hbo2
              have eo2 : try_parse_date dm (Value.vstr (dm.diso dd)) = dm.diso dd := by
                rw [tpd_vstr, if_neg (by simp [hbo2]), hstr, hdm.1 dd]
              rw [normv_date hbo hcf, eo2]
              exact valueEq_vstr_self _
        | none =>
          have eo : try_parse_date dm (Value.vstr s₀) = pyStrip s₀ := by
            rw [tpd_vstr, if_neg (by simp [hbs']), hp]
          left
          rw [eo]
          have hbo2 : isBlankStr (pyStrip s₀) = false := by
            rw [isBlankStr_congr (blankKey_pyStrip s₀)]
            exact hbs'
          have hbo : isBlank (Value.vstr (pyStrip s₀)) = false := hbo2
          have hstrip2 : pyStrip (pyStrip s₀) = pyStrip s₀ := by
            unfold pyStrip
            rw [show String.data (⟨pyStripL s₀.data⟩ : String) = pyStripL s₀.data from rfl,
              pyStripL_idem]
          have eo2 : try_parse_date dm (Value.vstr (pyStrip s₀)) = pyStrip s₀ := by
            rw [tpd_vstr, if_neg (by simp [hbo2]), hstrip2, hp]
          rw [normv_date hbo hcf, eo2]
          exact valueEq_vstr_self _
      | midInitF =>
        left
        rw [normv_mid hbs hcf]
        cases hf : (pyStripL s₀.data).find? isAlphaCh with
        | none =>
          have eo : norm_middle_initial (Value.vstr s₀) = "" := by
            rw [nmi_vstr, if_neg (by simp [hbs']), hf]
            rfl
          rw [eo, normv_empty]
          exact valueEq_vstr_self ""
        | some c =>
          have hcA : isAlphaCh c = true := List.find?_some hf
          have hCA : isAlphaCh (asciiUpper c) = true := isAlphaCh_asciiUpper hcA
          have hCns : isSpaceCh (asciiUpper c) = false := isAlphaCh_not_space hCA
          have hstr1 : pyStripL [asciiUpper c] = [asciiUpper c] :=
            pyStripL_eq_self (by
              intro x hx
              rw [List.mem_singleton.mp hx]
              exact hCns)
          have eo : norm_middle_initial (Value.vstr s₀) = ⟨[asciiUpper c]⟩ := by
            rw [nmi_vstr, if_neg (by simp [hbs']), hf]
            show (⟨pyStripL [asciiUpper c]⟩ : String) = ⟨[asciiUpper c]⟩
            rw [hstr1]
          have hl3 : isUpperCh (asciiUpper c) = true ∨ isLowerCh (asciiUpper c) = true
              ∨ isDigitCh (asciiUpper c) = true := by
            rcases (by simpa [isAlphaCh] using hCA :
                isUpperCh (asciiUpper c) = true ∨ isLowerCh (asciiUpper c) = true) with h | h
            · exact Or.inl h
            · exact Or.inr (Or.inl h)
          have hbo2 : isBlankStr ⟨[asciiUpper c]⟩ = false := single_char_not_blank hCns hl3
          have hbo : isBlank (Value.vstr ⟨[asciiUpper c]⟩) = false := hbo2
          have eo2 : norm_middle_initial (Value.vstr ⟨[asciiUpper c]⟩) = ⟨[asciiUpper c]⟩ := by
            rw [nmi_vstr, if_neg (by simp [hbo2])]
            rw [show String.data (⟨[asciiUpper c]⟩ : String) = [asciiUpper c] from rfl]
            rw [hstr1, List.find?_cons_of_pos _ hCA]
            show (⟨pyStripL [asciiUpper (asciiUpper c)]⟩ : String) = ⟨[asciiUpper c]⟩
            rw [asciiUpper_idem hcA, hstr1]
          rw [eo, normv_mid hbo hcf, eo2]
          exact valueEq_vstr_self _
      | suffixF =>
        rw [normv_suffix hbs hcf]
        rcases nsp_out_trichotomy (norm_spaces_punct (Value.vstr s₀)) (nspInv_nsp _)
          with hs | he | ⟨hbo, hfix⟩
        · exact Or.inr (Or.inl ⟨_, rfl, hs⟩)
        · left
          rw [he, normv_empty]
          exact valueEq_vstr_self ""
        · left
          rw [normv_suffix hbo hcf, hfix]
          exact valueEq_vstr_self _
      | empTypeF =>
        rw [normv_empType hbs hcf]
        rcases nsp_out_trichotomy (norm_spaces_punct (Value.vstr s₀)) (nspInv_nsp _)
          with hs | he | ⟨hbo, hfix⟩
        · exact Or.inr (Or.inl ⟨_, rfl, hs⟩)
        · left
          rw [he, normv_empty]
          exact valueEq_vstr_self ""
        · left
          rw [normv_empType hbo hcf, hfix]
          exact valueEq_vstr_self _
      | payTypeF =>
        rw [normv_payType hbs hcf]
        by_cases h1 : norm_spaces_punct (Value.vstr s₀) = ""
        · left
          rw [npt_eq, if_pos h1, normv_empty]
          exact valueEq_vstr_self ""
        · by_cases h2 : containsS (norm_spaces_punct (Value.vstr s₀)) "salar" = true
          · left
            have ept : norm_pay_type (Value.vstr s₀) = "salary" := by
              rw [npt_eq, if_neg h1, if_pos h2]
            rw [ept, normv_payType (by decide : isBlank (Value.vstr "salary") = false) hcf,
              show norm_pay_type (Value.vstr "salary") = "salary" from by decide]
            exact valueEq_vstr_self "salary"
          · by_cases h3 : containsS (norm_spaces_punct (Value.vstr s₀)) "hour" = true
            · left
              have ept : norm_pay_type (Value.vstr s₀) = "hourly" := by
                rw [npt_eq, if_neg h1, if_neg h2, if_pos h3]
              rw [ept, normv_payType (by decide : isBlank (Value.vstr "hourly") = false) hcf,
                show norm_pay_type (Value.vstr "hourly") = "hourly" from by decide]
              exact valueEq_vstr_self "hourly"
            · have ept : norm_pay_type (Value.vstr s₀) = norm_spaces_punct (Value.vstr s₀) := by
                rw [npt_eq, if_neg h1, if_neg h2, if_neg h3]
              rw [ept]
              rcases nsp_out_trichotomy (norm_spaces_punct (Value.vstr s₀)) (nspInv_nsp _)
                with hs | he | ⟨hbo, hfix⟩
              · exact Or.inr (Or.inl ⟨_, rfl, hs⟩)
              · exact absurd he h1
              · left
                have ept2 : norm_pay_type (Value.vstr (norm_spaces_punct (Value.vstr s₀)))
                    = norm_spaces_punct (Value.vstr s₀) := by
                  rw [npt_eq, hfix, if_neg h1, if_neg h2, if_neg h3]
                rw [normv_payType hbo hcf, ept2]
                exact valueEq_vstr_self _
      | empStatusF =>
        rw [normv_empStatus hbs hcf]
        by_cases h1 : norm_spaces_punct (Value.vstr s₀) = ""
        · left
          rw [nes_eq, if_pos h1, normv_empty]
          exact valueEq_vstr_self ""
        · by_cases h2 : norm_spaces_punct (Value.vstr s₀) = "on leave"
          · left
            have est : norm_employment_status (Value.vstr s₀) = "active" := by
              rw [nes_eq, if_neg h1, if_pos (by simp [h2])]
            rw [est, normv_empStatus (by decide : isBlank (Value.vstr "active") = false) hcf,
              show norm_employment_status (Value.vstr "active") = "active" from by decide]
            exact valueEq_vstr_self "active"
          · by_cases h3 : norm_spaces_punct (Value.vstr s₀) = "leave"
            · left
              have est : norm_employment_status (Value.vstr s₀) = "active" := by
                rw [nes_eq, if_neg h1, if_pos (by simp [h3])]
              rw [est, normv_empStatus (by decide : isBlank (Value.vstr "active") = false) hcf,
                show norm_employment_status (Value.vstr "active") = "active" from by decide]
              exact valueEq_vstr_self "active"
            · have est : norm_employment_status (Value.vstr s₀)
                  = norm_spaces_punct (Value.vstr s₀) := by
                rw [nes_eq, if_neg h1, if_neg (by simp [h2, h3])]
              rw [est]
              rcases nsp_out_trichotomy (norm_spaces_punct (Value.vstr s₀)) (nspInv_nsp _)
                with hs | he | ⟨hbo, hfix⟩
              · exact Or.inr (Or.inl ⟨_, rfl, hs⟩)
              · exact absurd he h1
              · left
                have est2 : norm_employment_status (Value.vstr (norm_spaces_punct (Value.vstr s₀)))
                    = norm_spaces_punct (Value.vstr s₀) := by
                  rw [nes_eq, hfix, if_neg h1, if_neg (by simp [h2, h3])]
                rw [normv_empStatus hbo hcf, est2]
                exact valueEq_vstr_self _
      | numericF =>
        cases hsd : safe_decimal (Value.vstr s₀) with
        | some dq =>
          left
          rw [normv_numeric_some hbs hcf hsd]
          obtain ⟨d2, hd2, heq⟩ := safe_decimal_vdec dq
          rw [normv_numeric_some (rfl : isBlank (Value.vdec dq) = false) hcf hd2]
          exact heq
        | none =>
          rw [normv_numeric_none hbs hcf hsd]
          by_cases hsome : (safe_decimal (Value.vstr (norm_spaces_punct (Value.vstr s₀)))).isSome = true
          · exact Or.inr (Or.inr ⟨rfl, norm_spaces_punct (Value.vstr s₀), rfl, hsome⟩)
          · rcases nsp_out_trichotomy (norm_spaces_punct (Value.vstr s₀)) (nspInv_nsp _)
              with hs | he | ⟨hbo, hfix⟩
            · exact Or.inr (Or.inl ⟨_, rfl, hs⟩)
            · left
              rw [he, normv_empty]
              exact valueEq_vstr_self ""
            · left
              have hnone : safe_decimal (Value.vstr (norm_spaces_punct (Value.vstr s₀))) = none := by
                cases hx : safe_decimal (Value.vstr (norm_spaces_punct (Value.vstr s₀))) with
                | none => rfl
                | some q => rw [hx] at hsome; simp at hsome
              rw [normv_numeric_none hbo hcf hnone, hfix]
              exact valueEq_vstr_self _
      | defaultF =>
        rw [normv_default hbs hcf]
        rcases nsp_out_trichotomy (norm_spaces_punct (Value.vstr s₀)) (nspInv_nsp _)
          with hs | he | ⟨hbo, hfix⟩
        · exact Or.inr (Or.inl ⟨_, rfl, hs⟩)
        · left
          rw [he, normv_empty]
          exact valueEq_vstr_self ""
        · left
          rw [normv_default hbo hcf, hfix]
          exact valueEq_vstr_self _

/-- C6: counterexample to the unconditional idempotence stated in the spec.
    On the default (text) field `"First Name"`, the raw value `"None!"`
    normalizes to `"none"`, which the second pass treats as a blank sentinel
    and collapses to `""`.  On the numeric field `"Annual Salary"`, the raw
    value `"(100)"` fails decimal parsing and falls back to the cleaned string
    `"100"`, which the second pass parses as the decimal `100`.  In both cases
    `norm_value_for_field` applied twice differs from applying it once. -/
theorem c6_idempotence_counterexample :
    (valueEq
        (norm_value_for_field dm0
          (norm_value_for_field dm0 (.vstr "None!") "First Name") "First Name")
        (norm_value_for_field dm0 (.vstr "None!") "First Name") = false
      ∧ norm_value_for_field dm0 (.vstr "None!") "First Name" = .vstr "none"
      ∧ norm_value_for_field dm0 (.vstr "none") "First Name" = .vstr "")
    ∧ (valueEq
        (norm_value_for_field dm0
          (norm_value_for_field dm0 (.vstr "(100)") "Annual Salary") "Annual Salary")
        (norm_value_for_field dm0 (.vstr "(100)") "Annual Salary") = false
      ∧ norm_value_for_field dm0 (.vstr "(100)") "Annual Salary" = .vstr "100"
      ∧ norm_value_for_field dm0 (.vstr "100") "Annual Salary" = .vdec ⟨100, 0⟩) := by
  decide

/-- Witness for `c6_idempotence_amended`: the concrete date backend `dm0`
    satisfies `GoodDate`, `"Alice"` is a raw cell, and the theorem's
    conclusion holds for it on the field `"First Name"`. -/
theorem c6_idempotence_amended_witness :
    GoodDate dm0 ∧ IsRawCell (.vstr "Alice") ∧
    (valueEq
        (norm_value_for_field dm0
          (norm_value_for_field dm0 (.vstr "Alice") "First Name") "First Name")
        (norm_value_for_field dm0 (.vstr "Alice") "First Name") = true
      ∨ (∃ s, norm_value_for_field dm0 (.vstr "Alice") "First Name" = .vstr s
          ∧ sentinelStr s = true)
      ∨ (classify_field "First Name" = FieldClass.numericF
          ∧ ∃ s, norm_value_for_field dm0 (.vstr "Alice") "First Name" = .vstr s
          ∧ (safe_decimal (.vstr s)).isSome = true)) := by
  have hg : GoodDate dm0 := ⟨fun d => rfl, fun d => rfl⟩
  exact ⟨hg, True.intro,
    c6_idempotence_amended dm0 hg (.vstr "Alice") True.intro "First Name"⟩
